import Mathlib

/-!
# Verification of the lane merge/split generator (`lane_def.py`)

This file gives a shallow embedding of the module
`scenariogeneration/xodr/lane_def.py` and proves properties of it.

Longitudinal positions and lane widths are modelled as rationals (`ℚ`):
the Python code only adds, compares, takes `min`, and divides these
floating-point quantities, and every claim under study is about exact
comparisons of such values, so `ℚ` is a faithful carrier.

Python run-time failures (`IndexError`, `TypeError`, `ValueError`) are
modelled with an explicit error monad `Except PyErr`.  The unbounded
`while` loop of `_create_lane_lists` is modelled with explicit fuel; a
distinguished error `PyErr.fuelExhausted` marks fuel running out, and a
theorem below shows the chosen fuel is always sufficient, i.e. the
Python loop terminates.
-/

/-- Python run-time errors relevant to the module, plus the artificial
`fuelExhausted` marker used by the fuel-bounded loop model. -/
inductive PyErr where
  | indexError
  | typeError
  | valueError
  | fuelExhausted
deriving DecidableEq, Repr

/-- Equality of `Except` results is decidable (needed to evaluate the
model on concrete inputs). -/
def exceptDecEq {e a : Type} [DecidableEq e] [DecidableEq a] :
    DecidableEq (Except e a)
  | .error x, .error y =>
    if h : x = y then isTrue (by rw [h])
    else isFalse (by intro hh; cases hh; exact h rfl)
  | .error _, .ok _ => isFalse (by intro h; cases h)
  | .ok _, .error _ => isFalse (by intro h; cases h)
  | .ok x, .ok y =>
    if h : x = y then isTrue (by rw [h])
    else isFalse (by intro hh; cases hh; exact h rfl)

instance {e a : Type} [DecidableEq e] [DecidableEq a] :
    DecidableEq (Except e a) := exceptDecEq

/-- Python list indexing `xs[i]` with an `int` index: non-negative indices
are positional, negative indices count from the end, and anything out of
range raises `IndexError`. -/
def pyIdx {α : Type} (xs : List α) (i : ℤ) : Except PyErr α :=
  if 0 ≤ i then
    match xs[i.toNat]? with
    | some a => .ok a
    | none => .error .indexError
  else if (-i).toNat ≤ xs.length then
    match xs[xs.length - (-i).toNat]? with
    | some a => .ok a
    | none => .error .indexError
  else .error .indexError

/-- Python `list.insert(n, x)`: inserts `x` before position `n`, clamping
`n` to the length of the list (a too-large `n` appends at the end).
Only non-negative positions occur in the modelled code. -/
def pyInsert (n : ℕ) (x : ℚ) (xs : List ℚ) : List ℚ :=
  xs.take n ++ x :: xs.drop n

/-- The `LaneDef` helper class: one interval of the road over which the
lane count on one side changes from `n_lanes_start` to `n_lanes_end`. -/
structure LaneDef where
  s_start : ℚ
  s_end : ℚ
  n_lanes_start : ℕ
  n_lanes_end : ℕ
  sub_lane : Option ℤ := none
  lane_start_widths : List ℚ := []
  lane_end_widths : List ℚ := []
deriving DecidableEq, Repr

/-- `LaneDef.__init__`: when `lane_end_widths` is passed as the empty
list, it is set to a copy of `lane_start_widths`. -/
def LaneDef.init (s_start s_end : ℚ) (nS nE : ℕ) (sub : Option ℤ)
    (sw ew : List ℚ) : LaneDef :=
  { s_start := s_start
    s_end := s_end
    n_lanes_start := nS
    n_lanes_end := nE
    sub_lane := sub
    lane_start_widths := sw
    lane_end_widths := if ew = [] then sw else ew }

/-- Truthiness of `self.sub_lane` in Python: `None` and `0` are falsy. -/
def subTruthy : Option ℤ → Bool
  | none => false
  | some k => k ≠ 0

/-- `LaneDef._adjust_lane_widths`: pads the shorter width list with a `0`
placeholder at position `abs(sub_lane) - 1` when a count change occurs. -/
def LaneDef.adjust_lane_widths (d : LaneDef) : LaneDef :=
  if subTruthy d.sub_lane then
    let p := (d.sub_lane.getD 0).natAbs - 1
    if d.lane_end_widths ≠ [] ∧ d.lane_end_widths.length < d.n_lanes_start then
      { d with lane_end_widths := pyInsert p 0 d.lane_end_widths }
    else if d.lane_start_widths ≠ [] ∧
        d.lane_start_widths.length < d.n_lanes_end then
      { d with lane_start_widths := pyInsert p 0 d.lane_start_widths }
    else d
  else d

/-- The local function `_check_lane_widths` of `_create_lane_lists`:
fills an empty width list with the default width, once per side. -/
def checkLaneWidths (w : ℚ) (d : LaneDef) : LaneDef :=
  let d1 := if d.lane_start_widths = [] then
      { d with lane_start_widths := List.replicate d.n_lanes_start w }
    else d
  if d1.lane_end_widths = [] then
    { d1 with lane_end_widths := List.replicate d1.n_lanes_end w }
  else d1

/-- Per-side input of `create_lanes_merge_split` / `_create_lane_lists`:
either a constant integer lane count or a list of `LaneDef`s. -/
inductive LaneInput where
  | consts (n : ℕ)
  | defs (l : List LaneDef)
deriving DecidableEq, Repr

/-- The list a `LaneInput` is replaced by after the `isinstance` checks
(`right = []` when an `int` was passed). -/
def LaneInput.toList : LaneInput → List LaneDef
  | .consts _ => []
  | .defs l => l

/-- The `const_<side>_lanes` variable after the `isinstance` checks. -/
def LaneInput.toConst : LaneInput → Option ℕ
  | .consts n => some n
  | .defs _ => none

/-- Parameters of the sweep loop of `_create_lane_lists` that do not
change between iterations. -/
structure SweepConfig where
  const_right : Option ℕ
  const_left : Option ℕ
  tot_length : ℚ
  default_lane_width : ℚ

/-- Mutable state of the sweep loop of `_create_lane_lists`.  The fields
`rdefs`/`ldefs` are the (mutated in place by `_check_lane_widths`)
input lists; `ret_right`/`ret_left` are the accumulated outputs. -/
structure SweepState where
  present_s : ℚ
  r_it : ℕ
  l_it : ℕ
  rdefs : List LaneDef
  ldefs : List LaneDef
  ret_right : List LaneDef
  ret_left : List LaneDef
deriving DecidableEq, Repr

/-- The per-side bookkeeping at the top of each loop iteration of
`_create_lane_lists`: decides whether the side's next pending `LaneDef`
starts exactly at `present_s` (`add_<side>`), and otherwise records the
position of the next start (`next_<side>`) and the steady-state lane
count (`n_<side>_lanes`).  Mirrors the code exactly, including the
`IndexError` from `right[-1]` when the side's list is empty and no
constant count was given.  When the flag is `true` the other two
components are unused by the loop body (Python leaves them stale). -/
def sideInfo (constSide : Option ℕ) (ds : List LaneDef) (it : ℕ)
    (present_s tot : ℚ) : Except PyErr (Bool × ℚ × ℕ) :=
  match ds[it]? with
  | some d =>
    if d.s_start = present_s then .ok (true, 0, 0)
    else .ok (false, d.s_start, d.n_lanes_start)
  | none =>
    match constSide with
    | some c => .ok (false, tot, c)
    | none =>
      match ds.getLast? with
      | some d => .ok (false, tot, d.n_lanes_end)
      | none => .error .indexError

/-- The width computation of the "no `LaneDef` starts here" (filler)
branch for a side given as a list: default widths, unless the previous
interval's end widths (list exhausted) or the next pending interval's
start widths are available to carry forward. -/
def fillerWidths (w : ℚ) (n : ℕ) (ds : List LaneDef) (it : ℕ) :
    Except PyErr (List ℚ × List ℚ) :=
  if it = ds.length then
    match pyIdx ds ((it : ℤ) - 1) with
    | .error e => .error e
    | .ok d =>
      if d.lane_end_widths ≠ [] then .ok (d.lane_end_widths, d.lane_end_widths)
      else .ok (List.replicate n w, List.replicate n w)
  else
    match ds[it]? with
    | some d =>
      if d.lane_start_widths ≠ [] then
        .ok (d.lane_start_widths, d.lane_start_widths)
      else .ok (List.replicate n w, List.replicate n w)
    | none => .error .indexError

/-- The filler `LaneDef` appended on one side in the branch where that
side has no `LaneDef` starting at `present_s` and the other side also
does not (`not add_left and not add_right`). -/
def fillerSide (constSide : Option ℕ) (w : ℚ) (n : ℕ) (ds : List LaneDef)
    (it : ℕ) (present_s s_end : ℚ) : Except PyErr LaneDef :=
  match constSide with
  | some _ =>
    .ok (LaneDef.init present_s s_end n n none
      (List.replicate n w) (List.replicate n w))
  | none =>
    match fillerWidths w n ds it with
    | .error e => .error e
    | .ok (sw, ew) => .ok (LaneDef.init present_s s_end n n none sw ew)

/-- One iteration of the `while present_s < tot_length` loop of
`_create_lane_lists` (the loop body; call only when
`present_s < tot_length`). -/
def sweepBody (cfg : SweepConfig) (st : SweepState) :
    Except PyErr SweepState :=
  match sideInfo cfg.const_right st.rdefs st.r_it st.present_s
      cfg.tot_length with
  | .error e => .error e
  | .ok (add_right, next_right, n_r_lanes) =>
    match sideInfo cfg.const_left st.ldefs st.l_it st.present_s
        cfg.tot_length with
    | .error e => .error e
    | .ok (add_left, next_left, n_l_lanes) =>
      if add_left = false ∧ add_right = false then
        -- no LaneDefs, just add the same amount of lanes on both sides
        let s_end := min next_left next_right
        match fillerSide cfg.const_right cfg.default_lane_width n_r_lanes
            st.rdefs st.r_it st.present_s s_end with
        | .error e => .error e
        | .ok fr =>
          match fillerSide cfg.const_left cfg.default_lane_width n_l_lanes
              st.ldefs st.l_it st.present_s s_end with
          | .error e => .error e
          | .ok fl =>
            .ok { st with
              present_s := s_end
              ret_right := st.ret_right ++ [fr]
              ret_left := st.ret_left ++ [fl] }
      else if add_left = true ∧ add_right = true then
        -- both sides have changes in the amount of lanes
        match st.ldefs[st.l_it]?, st.rdefs[st.r_it]? with
        | some dl0, some dr0 =>
          let dl := checkLaneWidths cfg.default_lane_width dl0
          let dr := checkLaneWidths cfg.default_lane_width dr0
          .ok { st with
            present_s := dl.s_end
            r_it := st.r_it + 1
            l_it := st.l_it + 1
            rdefs := st.rdefs.set st.r_it dr
            ldefs := st.ldefs.set st.l_it dl
            ret_right := st.ret_right ++ [dr]
            ret_left := st.ret_left ++ [dl] }
        | _, _ => .error .indexError
      else if add_right = true then
        -- only the right side changes; synthesize a left filler
        match st.rdefs[st.r_it]? with
        | some dr0 =>
          let dr := checkLaneWidths cfg.default_lane_width dr0
          .ok { st with
            present_s := dr.s_end
            r_it := st.r_it + 1
            rdefs := st.rdefs.set st.r_it dr
            ret_right := st.ret_right ++ [dr]
            ret_left := st.ret_left ++ [LaneDef.init st.present_s dr.s_end
              n_l_lanes n_l_lanes none
              (List.replicate n_l_lanes cfg.default_lane_width)
              (List.replicate n_l_lanes cfg.default_lane_width)] }
        | none => .error .indexError
      else
        -- only the left side changes; synthesize a right filler
        match st.ldefs[st.l_it]? with
        | some dl0 =>
          let dl := checkLaneWidths cfg.default_lane_width dl0
          .ok { st with
            present_s := dl.s_end
            l_it := st.l_it + 1
            ldefs := st.ldefs.set st.l_it dl
            ret_left := st.ret_left ++ [dl]
            ret_right := st.ret_right ++ [LaneDef.init st.present_s dl.s_end
              n_r_lanes n_r_lanes none
              (List.replicate n_r_lanes cfg.default_lane_width)
              (List.replicate n_r_lanes cfg.default_lane_width)] }
        | none => .error .indexError

/-- The fuel-bounded sweep loop of `_create_lane_lists`. -/
def sweepLoop (cfg : SweepConfig) : ℕ → SweepState → Except PyErr SweepState
  | 0, _ => .error .fuelExhausted
  | fuel + 1, st =>
    if st.present_s < cfg.tot_length then
      match sweepBody cfg st with
      | .error e => .error e
      | .ok st' => sweepLoop cfg fuel st'
    else .ok st

/-- The fuel given to the sweep loop.  A theorem below proves it is
always sufficient. -/
def sweepFuel (right left : LaneInput) : ℕ :=
  2 * (right.toList.length + left.toList.length) + 2

/-- `_create_lane_lists`: expands the two per-side inputs into two full
descriptor sequences, then applies `_adjust_lane_widths` to every
returned descriptor. -/
def create_lane_lists (right left : LaneInput) (tot_length : ℚ)
    (default_lane_width : ℚ) : Except PyErr (List LaneDef × List LaneDef) :=
  let cfg : SweepConfig :=
    ⟨right.toConst, left.toConst, tot_length, default_lane_width⟩
  let st0 : SweepState := ⟨0, 0, 0, right.toList, left.toList, [], []⟩
  match sweepLoop cfg (sweepFuel right left) st0 with
  | .error e => .error e
  | .ok st =>
    .ok (st.ret_right.map LaneDef.adjust_lane_widths,
      st.ret_left.map LaneDef.adjust_lane_widths)

/-! ## The lane-section builder

`Lane`, `LaneSection` and `get_coeffs_for_poly3` live outside
`lane_def.py` (in `lane.py` and `utils.py`, which are not part of this
repository snapshot); they are modelled from the spec.  The branch
structure below (road-mark choice and the five width cases) transcribes
the loops of `create_lanes_merge_split` itself, which is in the source.
-/

/-- A road-mark style as selected by `create_lanes_merge_split`:
either the standard solid or broken helper style, or the user-supplied
center road mark (deep-copied onto the center lane). -/
inductive RoadMarkKind where
  | solid
  | broken
  | center
deriving DecidableEq, Repr

/-- Modelled from the spec: a `Lane` carries four cubic polynomial
coefficients for its width profile `w(x) = a + b x + c x² + d x³`
(`Lane(lane_width)` is the constant profile `a = lane_width`), plus a
road-mark style; `lane.py` itself is not part of this snapshot. -/
structure MLane where
  a : ℚ
  b : ℚ
  c : ℚ
  d : ℚ
  roadmark : RoadMarkKind
deriving DecidableEq, Repr

/-- Modelled from the spec: one lane section, owning a center lane and
the outward-ordered right and left lanes; `lane.py` itself is not part
of this snapshot.  Only `s_start` is stored, as in
`LaneSection(left_lane[ls].s_start, lc)`. -/
structure MSection where
  s_start : ℚ
  rightlanes : List MLane
  leftlanes : List MLane
  centerlane : MLane
deriving DecidableEq, Repr

/-- Modelled from the spec: `get_coeffs_for_poly3(length, start, growing,
end)` returns the unique cubic with `w(0) = start`, `w(length) = end`
and zero slope at both ends; the `growing` flag does not change the
formula; it fails when the length is not positive (`utils.py` is not
part of this snapshot). -/
def get_coeffs_for_poly3 (len_ start_w : ℚ) (growing : Bool) (end_w : ℚ) :
    Except PyErr (ℚ × ℚ × ℚ × ℚ) :=
  if len_ ≤ 0 then .error .valueError
  else
    .ok (start_w, 0, 3 * (end_w - start_w) / len_ ^ 2,
      -2 * (end_w - start_w) / len_ ^ 3)

/-- `widths[i]` for a non-negative Python index. -/
def widthAt (xs : List ℚ) (i : ℕ) : Except PyErr ℚ :=
  match xs[i]? with
  | some v => .ok v
  | none => .error .indexError

/-- Width cases 3–5 of the per-lane builder loop (shared tail of the
`elif` chain): global end-width taper, per-descriptor width taper, or a
constant-width lane. -/
def buildLaneTail (w : ℚ) (wEnd : Option ℚ) (d : LaneDef) (i : ℕ)
    (rm : RoadMarkKind) : Except PyErr MLane :=
  if wEnd.getD w ≠ w then
    match get_coeffs_for_poly3 (d.s_end - d.s_start) w false (wEnd.getD 0) with
    | .error e => .error e
    | .ok c => .ok ⟨c.1, c.2.1, c.2.2.1, c.2.2.2, rm⟩
  else if d.lane_start_widths ≠ [] then do
    let sw ← widthAt d.lane_start_widths i
    let ew ← widthAt d.lane_end_widths i
    match get_coeffs_for_poly3 (d.s_end - d.s_start) sw false ew with
    | .error e => .error e
    | .ok c => .ok ⟨c.1, c.2.1, c.2.2.1, c.2.2.2, rm⟩
  else .ok ⟨w, 0, 0, 0, rm⟩

/-- The merge/split width case of the builder loop: a cubic between the
descriptor's start and end width at lane `i`. -/
def buildLaneChange (d : LaneDef) (i : ℕ) (growing : Bool)
    (rm : RoadMarkKind) : Except PyErr MLane := do
  let sw ← widthAt d.lane_start_widths i
  let ew ← widthAt d.lane_end_widths i
  match get_coeffs_for_poly3 (d.s_end - d.s_start) sw growing ew with
  | .error e => .error e
  | .ok c => .ok ⟨c.1, c.2.1, c.2.2.1, c.2.2.2, rm⟩

/-- One right lane of one lane section (`do the right lanes` loop body).
On the right side a merge is `n_lanes_start > n_lanes_end` with
`i == np.abs(sub_lane) - 1`; `np.abs(None)` raises `TypeError`. -/
def buildRightLane (w : ℚ) (wEnd : Option ℚ) (d : LaneDef) (i : ℕ) :
    Except PyErr MLane :=
  let m := max d.n_lanes_start d.n_lanes_end
  let rm := if i = m - 1 then RoadMarkKind.solid else RoadMarkKind.broken
  if d.n_lanes_start > d.n_lanes_end then
    match d.sub_lane with
    | none => .error .typeError
    | some s =>
      if (i : ℤ) = |s| - 1 then buildLaneChange d i false rm
      else buildLaneTail w wEnd d i rm
  else if d.n_lanes_start < d.n_lanes_end then
    match d.sub_lane with
    | none => .error .typeError
    | some s =>
      if (i : ℤ) = |s| - 1 then buildLaneChange d i true rm
      else buildLaneTail w wEnd d i rm
  else buildLaneTail w wEnd d i rm

/-- One left lane of one lane section (`do the left lanes` loop body).
On the left side the changed-lane test is `i == sub_lane - 1` (no
absolute value); `None - 1` raises `TypeError`. -/
def buildLeftLane (w : ℚ) (wEnd : Option ℚ) (d : LaneDef) (i : ℕ) :
    Except PyErr MLane :=
  let m := max d.n_lanes_start d.n_lanes_end
  let rm := if i = m - 1 then RoadMarkKind.solid else RoadMarkKind.broken
  if d.n_lanes_start < d.n_lanes_end then
    match d.sub_lane with
    | none => .error .typeError
    | some s =>
      if (i : ℤ) = s - 1 then buildLaneChange d i true rm
      else buildLaneTail w wEnd d i rm
  else if d.n_lanes_start > d.n_lanes_end then
    match d.sub_lane with
    | none => .error .typeError
    | some s =>
      if (i : ℤ) = s - 1 then buildLaneChange d i false rm
      else buildLaneTail w wEnd d i rm
  else buildLaneTail w wEnd d i rm

/-- One lane section built from the aligned pair of descriptors of index
`ls`: a zero-width center lane plus `max(n_lanes_start, n_lanes_end)`
lanes on each side. -/
def buildSection (w : ℚ) (wEnd : Option ℚ) (rd ld : LaneDef) :
    Except PyErr MSection := do
  let rls ← (List.range (max rd.n_lanes_start rd.n_lanes_end)).mapM
    (buildRightLane w wEnd rd)
  let lls ← (List.range (max ld.n_lanes_start ld.n_lanes_end)).mapM
    (buildLeftLane w wEnd ld)
  pure ⟨ld.s_start, rls, lls, ⟨0, 0, 0, 0, .center⟩⟩

/-- The `for ls in range(len(left_lane))` loop of
`create_lanes_merge_split`: builds one section per aligned interval;
`right_lane[ls]` raises `IndexError` when the right sequence is
shorter. -/
def buildSections (rds lds : List LaneDef) (w : ℚ) (wEnd : Option ℚ) :
    Except PyErr (List MSection) :=
  (List.range lds.length).mapM fun ls => do
    match lds[ls]?, rds[ls]? with
    | some ld, some rd => buildSection w wEnd rd ld
    | _, _ => .error .indexError

/-! ## The lane linker

The linker loops of `create_lanes_merge_split` emit links between the
lane objects of consecutive lane sections.  A lane object is identified
here by its position in its section's (right or left) lane list, which
has `max(n_lanes_start, n_lanes_end)` entries; `pyLaneIdx` resolves a
Python index expression into such a position, with Python's
negative-index wrap-around and `IndexError` semantics. -/

/-- Resolve Python list index `i` on a lane list of length `count`. -/
def pyLaneIdx (count : ℕ) (i : ℤ) : Except PyErr ℕ :=
  if 0 ≤ i then
    if i < (count : ℤ) then .ok i.toNat else .error .indexError
  else if -i ≤ (count : ℤ) then .ok (count - (-i).toNat)
  else .error .indexError

/-- Look up the predecessor lane at Python index `pi` (on a lane list of
`pc` entries) and the successor lane at Python index `ci` (on a lane
list of `cc` entries), as `lanelinker.add_link(...)` does; any failed
lookup raises `IndexError`. -/
def linkPair (pc cc : ℕ) (pi ci : ℤ) : Except PyErr (ℕ × ℕ) :=
  match pyLaneIdx pc pi with
  | .error e => .error e
  | .ok p =>
    match pyLaneIdx cc ci with
    | .error e => .error e
    | .ok q => .ok (p, q)

/-- Run the body of one linker `for j in range(...)` loop over the given
indices, collecting the emitted links in order and aborting at the
first raised error.  `none` means the iteration emits no link. -/
def collectLinks (f : ℕ → Option (Except PyErr (ℕ × ℕ))) :
    List ℕ → Except PyErr (List (ℕ × ℕ))
  | [] => .ok []
  | j :: js =>
    match f j with
    | none => collectLinks f js
    | some (.error e) => .error e
    | some (.ok p) =>
      match collectLinks f js with
      | .error e => .error e
      | .ok ps => .ok (p :: ps)

/-- The links emitted for the boundary between two consecutive RIGHT
descriptors `prev = right_lane[i-1]` and `cur = right_lane[i]`
(transcription of the first linker loop).  Each link is a pair
(predecessor lane position in section `i-1`, successor lane position in
section `i`). -/
def rightBoundaryLinks (prev cur : LaneDef) : Except PyErr (List (ℕ × ℕ)) :=
  let prevCount := max prev.n_lanes_start prev.n_lanes_end
  let curCount := max cur.n_lanes_start cur.n_lanes_end
  if cur.n_lanes_end > cur.n_lanes_start then
    -- lane split
    match cur.sub_lane with
    | none => .error .typeError
    | some s =>
      collectLinks (fun j =>
        if s < -((j : ℤ) + 1) then
          some (linkPair prevCount curCount (j : ℤ) (j : ℤ))
        else if s > -((j : ℤ) + 1) then
          some (linkPair prevCount curCount ((j : ℤ) - 1) (j : ℤ))
        else none) (List.range (prev.n_lanes_end + 1))
  else if prev.n_lanes_end < prev.n_lanes_start then
    -- lane merge
    match prev.sub_lane with
    | none => .error .typeError
    | some s =>
      collectLinks (fun j =>
        if s < -((j : ℤ) + 1) then
          some (linkPair prevCount curCount (j : ℤ) (j : ℤ))
        else if s > -((j : ℤ) + 1) then
          some (linkPair prevCount curCount (j : ℤ) ((j : ℤ) - 1))
        else none) (List.range (prev.n_lanes_end + 1))
  else
    -- same number of lanes, just add the links
    collectLinks (fun j =>
      some (linkPair prevCount curCount (j : ℤ) (j : ℤ))) (List.range prev.n_lanes_end)

/-- The links emitted for the boundary between two consecutive LEFT
descriptors (transcription of the second linker loop; the changed-lane
comparisons use `sub_lane` directly, without absolute value). -/
def leftBoundaryLinks (prev cur : LaneDef) : Except PyErr (List (ℕ × ℕ)) :=
  let prevCount := max prev.n_lanes_start prev.n_lanes_end
  let curCount := max cur.n_lanes_start cur.n_lanes_end
  if cur.n_lanes_end > cur.n_lanes_start then
    -- lane split
    match cur.sub_lane with
    | none => .error .typeError
    | some s =>
      collectLinks (fun j =>
        if s < (j : ℤ) + 1 then
          some (linkPair prevCount curCount ((j : ℤ) - 1) (j : ℤ))
        else if s > (j : ℤ) + 1 then
          some (linkPair prevCount curCount (j : ℤ) (j : ℤ))
        else none) (List.range (prev.n_lanes_end + 1))
  else if prev.n_lanes_end < prev.n_lanes_start then
    -- lane merge
    match prev.sub_lane with
    | none => .error .typeError
    | some s =>
      collectLinks (fun j =>
        if s < (j : ℤ) + 1 then
          some (linkPair prevCount curCount (j : ℤ) ((j : ℤ) - 1))
        else if s > (j : ℤ) + 1 then
          some (linkPair prevCount curCount (j : ℤ) (j : ℤ))
        else none) (List.range (prev.n_lanes_end + 1))
  else
    collectLinks (fun j =>
      some (linkPair prevCount curCount (j : ℤ) (j : ℤ))) (List.range prev.n_lanes_end)

/-- One link record of the linkage table: side, boundary index `i`
(between sections `i-1` and `i`), and the two lane positions. -/
structure LinkRec where
  onRight : Bool
  boundary : ℕ
  pred : ℕ
  succ : ℕ
deriving DecidableEq, Repr

/-- Both linker loops (`for i in range(1, len(right_lane))` and the left
analogue), producing the full linkage table. -/
def buildAllLinks (rds lds : List LaneDef) : Except PyErr (List LinkRec) := do
  let rl ← ((List.range rds.length).drop 1).mapM fun i => do
    match rds[i - 1]?, rds[i]? with
    | some prev, some cur =>
      let ps ← rightBoundaryLinks prev cur
      pure (ps.map fun p => LinkRec.mk true i p.1 p.2)
    | _, _ => .error .indexError
  let ll ← ((List.range lds.length).drop 1).mapM fun i => do
    match lds[i - 1]?, lds[i]? with
    | some prev, some cur =>
      let ps ← leftBoundaryLinks prev cur
      pure (ps.map fun p => LinkRec.mk false i p.1 p.2)
    | _, _ => .error .indexError
  pure (rl.flatten ++ ll.flatten)

/-- `create_lanes_merge_split`: the full build — timeline expansion,
lane-section construction, lane linking.  The `Lanes`/`LaneLinker`
containers of `lane.py`/`links.py` are modelled as the pair of the
section sequence and the linkage table. -/
def create_lanes_merge_split (right left : LaneInput) (road_length : ℚ)
    (lane_width : ℚ) (lane_width_end : Option ℚ) :
    Except PyErr (List MSection × List LinkRec) := do
  let (rl, ll) ← create_lane_lists right left road_length lane_width
  let secs ← buildSections rl ll lane_width lane_width_end
  let links ← buildAllLinks rl ll
  pure (secs, links)

/-! ## Derived predicates used in the statements -/

/-- The interval boundaries of a descriptor. -/
def bnds (d : LaneDef) : ℚ × ℚ := (d.s_start, d.s_end)

/-- `tiles a b ds`: the intervals of `ds` are contiguous, non-empty,
non-overlapping and exactly cover `[a, b)` in order. -/
def tiles : ℚ → ℚ → List LaneDef → Prop
  | a, b, [] => a = b
  | a, b, d :: ds => d.s_start = a ∧ a < d.s_end ∧ tiles d.s_end b ds

/-- Decision procedure for `tiles`. -/
def tilesDec : (a b : ℚ) → (ds : List LaneDef) → Decidable (tiles a b ds)
  | a, b, [] => decidable_of_iff (a = b) Iff.rfl
  | a, b, d :: ds =>
    letI := tilesDec d.s_end b ds
    decidable_of_iff (d.s_start = a ∧ a < d.s_end ∧ tiles d.s_end b ds)
      Iff.rfl

instance (a b : ℚ) (ds : List LaneDef) : Decidable (tiles a b ds) :=
  tilesDec a b ds

/-- Width lists populated to exactly the lane counts. -/
def widthsExact (d : LaneDef) : Prop :=
  d.lane_start_widths.length = d.n_lanes_start ∧
  d.lane_end_widths.length = d.n_lanes_end

instance (d : LaneDef) : Decidable (widthsExact d) :=
  inferInstanceAs (Decidable (_ ∧ _))

/-- Width lists either empty or populated to exactly the lane counts —
the documented precondition of `LaneDef`. -/
def emptyOrExact (d : LaneDef) : Prop :=
  (d.lane_start_widths = [] ∨
    d.lane_start_widths.length = d.n_lanes_start) ∧
  (d.lane_end_widths = [] ∨ d.lane_end_widths.length = d.n_lanes_end)

instance (d : LaneDef) : Decidable (emptyOrExact d) :=
  inferInstanceAs (Decidable ((_ ∨ _) ∧ (_ ∨ _)))

/-- An executable decision procedure for `List.Chain` (the library
instance is tactic-defined and does not reduce under `decide`). -/
def chainDec {α : Type} (r : α → α → Prop) [DecidableRel r] :
    (a : α) → (l : List α) → Decidable (List.Chain r a l)
  | _, [] => isTrue List.Chain.nil
  | a, b :: l =>
    letI := chainDec r b l
    decidable_of_iff (r a b ∧ List.Chain r b l) List.chain_cons.symm

instance (priority := 2000) chain'DecInst {α : Type} (r : α → α → Prop)
    [DecidableRel r] : (l : List α) → Decidable (List.Chain' r l)
  | [] => isTrue True.intro
  | a :: l => chainDec r a l

/-- One side's descriptor list is well-formed for road length `tot`:
every interval is non-empty and inside `[0, tot]`, and consecutive
intervals do not overlap and come in order. -/
def sideOk (tot : ℚ) (ds : List LaneDef) : Prop :=
  (∀ d ∈ ds, 0 ≤ d.s_start ∧ d.s_start < d.s_end ∧ d.s_end ≤ tot) ∧
  ds.Chain' (fun a b => a.s_end ≤ b.s_start)

instance (tot : ℚ) (ds : List LaneDef) : Decidable (sideOk tot ds) :=
  inferInstanceAs (Decidable (_ ∧ _))

/-- A per-side input is valid: a constant count, or a non-empty
well-formed descriptor list whose width lists obey the documented
`LaneDef` constraint (empty or exactly the lane count). -/
def inputOk (tot : ℚ) : LaneInput → Prop
  | .consts _ => True
  | .defs ds => ds ≠ [] ∧ sideOk tot ds ∧ ∀ d ∈ ds, emptyOrExact d

instance (tot : ℚ) : (i : LaneInput) → Decidable (inputOk tot i)
  | .consts _ => inferInstanceAs (Decidable True)
  | .defs _ => inferInstanceAs (Decidable (_ ∧ _ ∧ _))

/-- Cross-side compatibility: any right descriptor and any left
descriptor are either exactly co-located (same interval) or disjoint. -/
def crossOk (rs ls : List LaneDef) : Prop :=
  ∀ dr ∈ rs, ∀ dl ∈ ls,
    (dr.s_start = dl.s_start ∧ dr.s_end = dl.s_end) ∨
    dr.s_end ≤ dl.s_start ∨ dl.s_end ≤ dr.s_start

instance (rs ls : List LaneDef) : Decidable (crossOk rs ls) :=
  inferInstanceAs (Decidable (∀ dr ∈ rs, ∀ dl ∈ ls, _ ∨ _ ∨ _))

/-! ## Basic lemmas about the descriptor operations -/

theorem pyInsert_length (n : ℕ) (x : ℚ) (xs : List ℚ) :
    (pyInsert n x xs).length = xs.length + 1 := by
  simp [pyInsert]
  omega

theorem pyInsert_getElem (n : ℕ) (x : ℚ) (xs : List ℚ) (h : n ≤ xs.length) :
    (pyInsert n x xs)[n]? = some x := by
  unfold pyInsert
  have hl : (xs.take n).length = n := by simp [Nat.min_eq_left h]
  rw [List.getElem?_append_right (le_of_eq hl)]
  simp [hl]

theorem adjust_s_start (d : LaneDef) :
    d.adjust_lane_widths.s_start = d.s_start := by
  unfold LaneDef.adjust_lane_widths
  dsimp only
  repeat' split
  all_goals rfl

theorem adjust_s_end (d : LaneDef) :
    d.adjust_lane_widths.s_end = d.s_end := by
  unfold LaneDef.adjust_lane_widths
  dsimp only
  repeat' split
  all_goals rfl

theorem adjust_n_start (d : LaneDef) :
    d.adjust_lane_widths.n_lanes_start = d.n_lanes_start := by
  unfold LaneDef.adjust_lane_widths
  dsimp only
  repeat' split
  all_goals rfl

theorem adjust_n_end (d : LaneDef) :
    d.adjust_lane_widths.n_lanes_end = d.n_lanes_end := by
  unfold LaneDef.adjust_lane_widths
  dsimp only
  repeat' split
  all_goals rfl

theorem adjust_sub (d : LaneDef) :
    d.adjust_lane_widths.sub_lane = d.sub_lane := by
  unfold LaneDef.adjust_lane_widths
  dsimp only
  repeat' split
  all_goals rfl

theorem adjust_bnds (d : LaneDef) : bnds d.adjust_lane_widths = bnds d := by
  simp [bnds, adjust_s_start, adjust_s_end]

theorem check_s_start (w : ℚ) (d : LaneDef) :
    (checkLaneWidths w d).s_start = d.s_start := by
  unfold checkLaneWidths
  dsimp only
  repeat' split
  all_goals rfl

theorem check_s_end (w : ℚ) (d : LaneDef) :
    (checkLaneWidths w d).s_end = d.s_end := by
  unfold checkLaneWidths
  dsimp only
  repeat' split
  all_goals rfl

theorem check_n_start (w : ℚ) (d : LaneDef) :
    (checkLaneWidths w d).n_lanes_start = d.n_lanes_start := by
  unfold checkLaneWidths
  dsimp only
  repeat' split
  all_goals rfl

theorem check_n_end (w : ℚ) (d : LaneDef) :
    (checkLaneWidths w d).n_lanes_end = d.n_lanes_end := by
  unfold checkLaneWidths
  dsimp only
  repeat' split
  all_goals rfl

theorem check_sub (w : ℚ) (d : LaneDef) :
    (checkLaneWidths w d).sub_lane = d.sub_lane := by
  unfold checkLaneWidths
  dsimp only
  repeat' split
  all_goals rfl

theorem check_start_widths (w : ℚ) (d : LaneDef) :
    (checkLaneWidths w d).lane_start_widths =
      if d.lane_start_widths = [] then
        List.replicate d.n_lanes_start w
      else d.lane_start_widths := by
  unfold checkLaneWidths
  dsimp only
  by_cases h : d.lane_start_widths = []
  · simp only [if_pos h]
    split <;> simp [h]
  · simp only [if_neg h]
    split <;> simp [h]

theorem check_end_widths (w : ℚ) (d : LaneDef) :
    (checkLaneWidths w d).lane_end_widths =
      if d.lane_end_widths = [] then
        List.replicate d.n_lanes_end w
      else d.lane_end_widths := by
  unfold checkLaneWidths
  dsimp only
  by_cases h : d.lane_start_widths = []
  · simp only [if_pos h]
    split <;> simp_all
  · simp only [if_neg h]
    split <;> simp_all

theorem check_exact (w : ℚ) (d : LaneDef) (h : emptyOrExact d) :
    widthsExact (checkLaneWidths w d) := by
  obtain ⟨h1, h2⟩ := h
  constructor
  · rw [check_start_widths, check_n_start]
    split <;> simp_all
  · rw [check_end_widths, check_n_end]
    split <;> simp_all

theorem init_bnds (a b : ℚ) (nS nE : ℕ) (sub : Option ℤ) (sw ew : List ℚ) :
    bnds (LaneDef.init a b nS nE sub sw ew) = (a, b) := rfl

/-! ## Claims about `_adjust_lane_widths` and the constructor -/

/-- C5: for a descriptor with a set, non-zero `sub_lane`:
if `lane_end_widths` is non-empty and shorter than `n_lanes_start`
(a merge), exactly one `0.0` is inserted into `lane_end_widths` at
position `abs(sub_lane) - 1` and nothing else changes; otherwise if
`lane_start_widths` is non-empty and shorter than `n_lanes_end`
(a split), the insertion goes into `lane_start_widths`; at most one of
the two happens, and when neither condition holds (or `sub_lane` is
unset or zero) the descriptor is unchanged. -/
theorem adjust_padding_cases (d : LaneDef) :
    (∀ k : ℤ, d.sub_lane = some k → k ≠ 0 →
      ((d.lane_end_widths ≠ [] ∧
          d.lane_end_widths.length < d.n_lanes_start) →
        d.adjust_lane_widths.lane_end_widths.length =
          d.lane_end_widths.length + 1 ∧
        d.adjust_lane_widths.lane_end_widths =
          d.lane_end_widths.take (k.natAbs - 1) ++
            0 :: d.lane_end_widths.drop (k.natAbs - 1) ∧
        (k.natAbs - 1 ≤ d.lane_end_widths.length →
          d.adjust_lane_widths.lane_end_widths[k.natAbs - 1]? = some 0) ∧
        d.adjust_lane_widths.lane_start_widths = d.lane_start_widths) ∧
      (¬(d.lane_end_widths ≠ [] ∧
          d.lane_end_widths.length < d.n_lanes_start) →
        (d.lane_start_widths ≠ [] ∧
          d.lane_start_widths.length < d.n_lanes_end) →
        d.adjust_lane_widths.lane_start_widths.length =
          d.lane_start_widths.length + 1 ∧
        d.adjust_lane_widths.lane_start_widths =
          d.lane_start_widths.take (k.natAbs - 1) ++
            0 :: d.lane_start_widths.drop (k.natAbs - 1) ∧
        (k.natAbs - 1 ≤ d.lane_start_widths.length →
          d.adjust_lane_widths.lane_start_widths[k.natAbs - 1]? = some 0) ∧
        d.adjust_lane_widths.lane_end_widths = d.lane_end_widths) ∧
      (¬(d.lane_end_widths ≠ [] ∧
          d.lane_end_widths.length < d.n_lanes_start) →
        ¬(d.lane_start_widths ≠ [] ∧
          d.lane_start_widths.length < d.n_lanes_end) →
        d.adjust_lane_widths = d)) ∧
    ((d.sub_lane = none ∨ d.sub_lane = some 0) →
      d.adjust_lane_widths = d) := by
  constructor
  · intro k hk hk0
    have ht : subTruthy d.sub_lane = true := by
      simp [subTruthy, hk, hk0]
    have hg : d.sub_lane.getD 0 = k := by simp [hk]
    refine ⟨fun hm => ?_, fun hnm hs => ?_, fun hnm hns => ?_⟩
    · unfold LaneDef.adjust_lane_widths
      rw [if_pos ht]
      dsimp only
      rw [hg, if_pos hm]
      refine ⟨pyInsert_length _ _ _, rfl, fun hp => ?_, rfl⟩
      exact pyInsert_getElem _ _ _ hp
    · unfold LaneDef.adjust_lane_widths
      rw [if_pos ht]
      dsimp only
      rw [hg, if_neg hnm, if_pos hs]
      refine ⟨pyInsert_length _ _ _, rfl, fun hp => ?_, rfl⟩
      exact pyInsert_getElem _ _ _ hp
    · unfold LaneDef.adjust_lane_widths
      rw [if_pos ht]
      dsimp only
      rw [hg, if_neg hnm, if_neg hns]
  · intro h
    have ht : subTruthy d.sub_lane = false := by
      rcases h with h | h <;> simp [subTruthy, h]
    unfold LaneDef.adjust_lane_widths
    rw [ht]
    simp

/-- Witness for `adjust_padding_cases`: a concrete merge descriptor
(3 lanes narrowing to 2, `sub_lane = -1`, end widths `[3, 3]`) gets
exactly one zero inserted at position 0 of its end widths. -/
theorem adjust_padding_cases_witness :
    (({ s_start := 0, s_end := 10, n_lanes_start := 3, n_lanes_end := 2,
        sub_lane := some (-1), lane_start_widths := [3, 3, 3],
        lane_end_widths := [3, 3] } : LaneDef).lane_end_widths ≠ [] ∧
      (2 : ℕ) < 3) ∧
    ({ s_start := 0, s_end := 10, n_lanes_start := 3, n_lanes_end := 2,
        sub_lane := some (-1), lane_start_widths := [3, 3, 3],
        lane_end_widths := [3, 3] } : LaneDef).adjust_lane_widths.lane_end_widths
      = [0, 3, 3] := by
  constructor
  · exact ⟨by decide, by decide⟩
  · have h := (adjust_padding_cases
      { s_start := 0, s_end := 10, n_lanes_start := 3, n_lanes_end := 2,
        sub_lane := some (-1), lane_start_widths := [3, 3, 3],
        lane_end_widths := [3, 3] }).1 (-1) rfl (by decide)
    have h2 := (h.1 (by exact ⟨by decide, by decide⟩)).2.1
    simpa using h2

/-- C10: a `LaneDef` constructed with non-empty `lane_start_widths` and
empty `lane_end_widths` gets `lane_end_widths` equal to
`lane_start_widths`, and a later merge-case insertion into
`lane_end_widths` by `_adjust_lane_widths` leaves `lane_start_widths`
unchanged (the constructor copied the list rather than aliasing it). -/
theorem init_end_copy_independent (s e : ℚ) (nS nE : ℕ) (sub : Option ℤ)
    (sw : List ℚ) (hsw : sw ≠ []) :
    (LaneDef.init s e nS nE sub sw []).lane_end_widths = sw ∧
    (LaneDef.init s e nS nE sub sw []).lane_start_widths = sw ∧
    (∀ k : ℤ, sub = some k → k ≠ 0 → sw.length < nS →
      (LaneDef.init s e nS nE sub sw []).adjust_lane_widths.lane_start_widths
        = sw ∧
      (LaneDef.init s e nS nE sub sw
        []).adjust_lane_widths.lane_end_widths.length = sw.length + 1) := by
  refine ⟨rfl, rfl, fun k hk hk0 hlen => ?_⟩
  have h := (adjust_padding_cases (LaneDef.init s e nS nE sub sw [])).1 k
    (by simp [LaneDef.init, hk]) hk0
  have hm : (LaneDef.init s e nS nE sub sw []).lane_end_widths ≠ [] ∧
      (LaneDef.init s e nS nE sub sw []).lane_end_widths.length <
        (LaneDef.init s e nS nE sub sw []).n_lanes_start := by
    constructor
    · simpa [LaneDef.init] using hsw
    · simpa [LaneDef.init] using hlen
  obtain ⟨hl, -, -, hs⟩ := h.1 hm
  refine ⟨by simpa [LaneDef.init] using hs, ?_⟩
  rw [hl]
  simp [LaneDef.init]

/-- Witness for `init_end_copy_independent`: concrete instance with
`sw = [3, 3]`, a merge from 3 lanes, `sub_lane = -2`. -/
theorem init_end_copy_independent_witness :
    ([3, 3] : List ℚ) ≠ [] ∧
    (LaneDef.init 0 10 3 2 (some (-2)) [3, 3] []).lane_end_widths = [3, 3] ∧
    (LaneDef.init 0 10 3 2 (some (-2)) [3, 3]
      []).adjust_lane_widths.lane_start_widths = [3, 3] := by
  have h := init_end_copy_independent 0 10 3 2 (some (-2)) [3, 3] (by decide)
  exact ⟨by decide, h.1, (h.2.2 (-2) rfl (by decide) (by decide)).1⟩

/-! ## The both-sides case of the sweep (claim C4) -/

theorem sideInfo_add (c : Option ℕ) (ds : List LaneDef) (it : ℕ)
    (p tot : ℚ) (d : LaneDef) (h : ds[it]? = some d)
    (hs : d.s_start = p) : sideInfo c ds it p tot = .ok (true, 0, 0) := by
  unfold sideInfo
  rw [h]
  simp [hs]

/-- Equation for the loop body when both sides have a pending descriptor
starting exactly at `present_s`: both are consumed (checked and stored
back), and `present_s` becomes the LEFT descriptor's `s_end`. -/
theorem sweepBody_both (cfg : SweepConfig) (st : SweepState)
    (dr dl : LaneDef) (hr : st.rdefs[st.r_it]? = some dr)
    (hl : st.ldefs[st.l_it]? = some dl) (hrs : dr.s_start = st.present_s)
    (hls : dl.s_start = st.present_s) :
    sweepBody cfg st = .ok { st with
      present_s := dl.s_end
      r_it := st.r_it + 1
      l_it := st.l_it + 1
      rdefs := st.rdefs.set st.r_it (checkLaneWidths cfg.default_lane_width dr)
      ldefs := st.ldefs.set st.l_it (checkLaneWidths cfg.default_lane_width dl)
      ret_right := st.ret_right ++ [checkLaneWidths cfg.default_lane_width dr]
      ret_left := st.ret_left ++
        [checkLaneWidths cfg.default_lane_width dl] } := by
  unfold sweepBody
  rw [sideInfo_add _ _ _ _ _ dr hr hrs, sideInfo_add _ _ _ _ _ dl hl hls]
  simp only [hl, hr]
  simp [check_s_end]

/-- C4 (amended): during the sweep, when both sides have a user
descriptor starting exactly at the current position, both descriptors
are consumed, but the swept position advances to the LEFT descriptor's
`s_end` — the right descriptor's `s_end` is ignored (it is NOT
`min(left.s_end, right.s_end)` in general). -/
theorem sweep_both_advances_to_left_end (cfg : SweepConfig)
    (st : SweepState) (dr dl : LaneDef)
    (hr : st.rdefs[st.r_it]? = some dr) (hl : st.ldefs[st.l_it]? = some dl)
    (hrs : dr.s_start = st.present_s) (hls : dl.s_start = st.present_s) :
    ∃ st', sweepBody cfg st = .ok st' ∧
      st'.present_s = dl.s_end ∧
      st'.r_it = st.r_it + 1 ∧ st'.l_it = st.l_it + 1 ∧
      st'.ret_right = st.ret_right ++
        [checkLaneWidths cfg.default_lane_width dr] ∧
      st'.ret_left = st.ret_left ++
        [checkLaneWidths cfg.default_lane_width dl] := by
  exact ⟨_, sweepBody_both cfg st dr dl hr hl hrs hls,
    rfl, rfl, rfl, rfl, rfl⟩

/-- The concrete right-side descriptor `[0, 5)` used to refute C4. -/
def ce4Right : LaneDef :=
  { s_start := 0, s_end := 5, n_lanes_start := 2, n_lanes_end := 2 }

/-- The concrete left-side descriptor `[0, 10)` used to refute C4. -/
def ce4Left : LaneDef :=
  { s_start := 0, s_end := 10, n_lanes_start := 2, n_lanes_end := 2 }

/-- The concrete sweep state used to refute C4: position `0`, right list
`[ce4Right]`, left list `[ce4Left]`. -/
def ce4State : SweepState := ⟨0, 0, 0, [ce4Right], [ce4Left], [], []⟩

/-- Counterexample to C4 as stated: with a left descriptor `[0, 10)` and
a right descriptor `[0, 5)` both starting at the current position `0`,
the body advances the swept position to `10` (the left `s_end`), not to
`min(10, 5) = 5` as the claim asserts. -/
theorem sweep_both_min_counterexample :
    ((sweepBody ⟨none, none, 20, 3⟩ ce4State).map
      (fun st => st.present_s)) = .ok 10 ∧
    ¬((10 : ℚ) = min ce4Left.s_end ce4Right.s_end) := by
  constructor
  · rfl
  · decide

/-- Witness for `sweep_both_advances_to_left_end` at the concrete state
of the counterexample. -/
theorem sweep_both_advances_to_left_end_witness :
    ∃ st', sweepBody ⟨none, none, 20, 3⟩ ce4State = .ok st' ∧
      st'.present_s = (10 : ℚ) ∧ st'.r_it = 1 ∧ st'.l_it = 1 ∧
      st'.ret_right = [checkLaneWidths 3 ce4Right] ∧
      st'.ret_left = [checkLaneWidths 3 ce4Left] := by
  have h := sweep_both_advances_to_left_end ⟨none, none, 20, 3⟩ ce4State
    ce4Right ce4Left rfl rfl rfl rfl
  obtain ⟨st', h1, h2, h3, h4, h5, h6⟩ := h
  exact ⟨st', h1, h2, h3, h4, by simpa using h5, by simpa using h6⟩

/-! ## Equations for the remaining branches of the loop body -/

theorem sideInfo_pending (c : Option ℕ) (ds : List LaneDef) (it : ℕ)
    (p tot : ℚ) (d : LaneDef) (h : ds[it]? = some d)
    (hs : d.s_start ≠ p) :
    sideInfo c ds it p tot = .ok (false, d.s_start, d.n_lanes_start) := by
  unfold sideInfo
  rw [h]
  simp [hs]

theorem sideInfo_const (n : ℕ) (ds : List LaneDef) (it : ℕ) (p tot : ℚ)
    (h : ds[it]? = none) :
    sideInfo (some n) ds it p tot = .ok (false, tot, n) := by
  unfold sideInfo
  rw [h]

theorem sideInfo_last (ds : List LaneDef) (it : ℕ) (p tot : ℚ)
    (d : LaneDef) (h : ds[it]? = none) (hlast : ds.getLast? = some d) :
    sideInfo none ds it p tot = .ok (false, tot, d.n_lanes_end) := by
  unfold sideInfo
  rw [h, hlast]

theorem check_bnds (w : ℚ) (d : LaneDef) :
    bnds (checkLaneWidths w d) = bnds d := by
  simp [bnds, check_s_start, check_s_end]

/-- Equation for the loop body when only the right side has a pending
descriptor starting at `present_s`: it is consumed and a same-count
filler spanning the same interval is synthesized on the left. -/
theorem sweepBody_onlyRight (cfg : SweepConfig) (st : SweepState)
    (dr : LaneDef) (nextl : ℚ) (nl : ℕ)
    (hr : st.rdefs[st.r_it]? = some dr) (hrs : dr.s_start = st.present_s)
    (hl : sideInfo cfg.const_left st.ldefs st.l_it st.present_s
      cfg.tot_length = .ok (false, nextl, nl)) :
    sweepBody cfg st = .ok { st with
      present_s := dr.s_end
      r_it := st.r_it + 1
      rdefs := st.rdefs.set st.r_it (checkLaneWidths cfg.default_lane_width dr)
      ret_right := st.ret_right ++ [checkLaneWidths cfg.default_lane_width dr]
      ret_left := st.ret_left ++ [LaneDef.init st.present_s dr.s_end nl nl
        none (List.replicate nl cfg.default_lane_width)
        (List.replicate nl cfg.default_lane_width)] } := by
  unfold sweepBody
  rw [sideInfo_add _ _ _ _ _ dr hr hrs, hl]
  simp only [hr]
  simp [check_s_end]

/-- Equation for the loop body when only the left side has a pending
descriptor starting at `present_s`. -/
theorem sweepBody_onlyLeft (cfg : SweepConfig) (st : SweepState)
    (dl : LaneDef) (nextr : ℚ) (nr : ℕ)
    (hl : st.ldefs[st.l_it]? = some dl) (hls : dl.s_start = st.present_s)
    (hr : sideInfo cfg.const_right st.rdefs st.r_it st.present_s
      cfg.tot_length = .ok (false, nextr, nr)) :
    sweepBody cfg st = .ok { st with
      present_s := dl.s_end
      l_it := st.l_it + 1
      ldefs := st.ldefs.set st.l_it (checkLaneWidths cfg.default_lane_width dl)
      ret_left := st.ret_left ++ [checkLaneWidths cfg.default_lane_width dl]
      ret_right := st.ret_right ++ [LaneDef.init st.present_s dl.s_end nr nr
        none (List.replicate nr cfg.default_lane_width)
        (List.replicate nr cfg.default_lane_width)] } := by
  unfold sweepBody
  rw [hr, sideInfo_add _ _ _ _ _ dl hl hls]
  simp only [hl]
  simp [check_s_end]

/-- Equation for the loop body when neither side has a pending
descriptor starting at `present_s` and both filler constructions
succeed. -/
theorem sweepBody_filler (cfg : SweepConfig) (st : SweepState)
    (nextr : ℚ) (nr : ℕ) (nextl : ℚ) (nl : ℕ) (fr fl : LaneDef)
    (hr : sideInfo cfg.const_right st.rdefs st.r_it st.present_s
      cfg.tot_length = .ok (false, nextr, nr))
    (hl : sideInfo cfg.const_left st.ldefs st.l_it st.present_s
      cfg.tot_length = .ok (false, nextl, nl))
    (hfr : fillerSide cfg.const_right cfg.default_lane_width nr st.rdefs
      st.r_it st.present_s (min nextl nextr) = .ok fr)
    (hfl : fillerSide cfg.const_left cfg.default_lane_width nl st.ldefs
      st.l_it st.present_s (min nextl nextr) = .ok fl) :
    sweepBody cfg st = .ok { st with
      present_s := min nextl nextr
      ret_right := st.ret_right ++ [fr]
      ret_left := st.ret_left ++ [fl] } := by
  unfold sweepBody
  rw [hr, hl]
  simp only [if_pos (by simp : (false = false ∧ false = false))]
  rw [hfr, hfl]
  rfl

theorem sweepLoop_step (cfg : SweepConfig) (fuel : ℕ) (st : SweepState)
    (h : st.present_s < cfg.tot_length) :
    sweepLoop cfg (fuel + 1) st =
      match sweepBody cfg st with
      | .error e => .error e
      | .ok st' => sweepLoop cfg fuel st' := by
  rw [sweepLoop, if_pos h]

theorem sweepLoop_stop (cfg : SweepConfig) (fuel : ℕ) (st : SweepState)
    (h : ¬st.present_s < cfg.tot_length) :
    sweepLoop cfg (fuel + 1) st = .ok st := by
  rw [sweepLoop, if_neg h]

/-! ## Claim C6: behaviour on invalid input -/

/-- The concrete invalid descriptor used to refute C6: it extends to
`s = 20` on a road of length `10`. -/
def ce6Def : LaneDef :=
  { s_start := 0, s_end := 20, n_lanes_start := 2, n_lanes_end := 2 }

/-- The right sequence actually returned for the invalid input of
`ce6Def`. -/
def ce6OutRight : LaneDef :=
  { s_start := 0, s_end := 20, n_lanes_start := 2, n_lanes_end := 2, sub_lane := none, lane_start_widths := [3, 3], lane_end_widths := [3, 3] }

/-- The left sequence actually returned for the invalid input of
`ce6Def`. -/
def ce6OutLeft : LaneDef :=
  { s_start := 0, s_end := 20, n_lanes_start := 1, n_lanes_end := 1, sub_lane := none, lane_start_widths := [3], lane_end_widths := [3] }

/-- Counterexample to C6 as stated: a descriptor extending past
`road_length` (an invalid input) is NOT reported as an error — the
expansion succeeds and returns sequences whose interval `[0, 20)`
extends past the road length `10`. -/
theorem no_validation_counterexample :
    create_lane_lists (.defs [ce6Def]) (.consts 1) 10 3 =
      .ok ([ce6OutRight], [ce6OutLeft]) ∧ (10 : ℚ) < ce6Def.s_end := by
  exact ⟨by decide, by decide⟩

/-- C6 (amended): the expansion performs no validation of descriptor
intervals.  A sole right descriptor starting at `0` whose `s_end`
exceeds `road_length` is consumed normally and returned as-is (with a
matching left filler), so the build returns an out-of-range result
instead of reporting an error and aborting. -/
theorem no_validation_overlong_descriptor (d : LaneDef) (c : ℕ)
    (tot w : ℚ) (hd0 : d.s_start = 0) (h0 : 0 < tot)
    (hend : tot < d.s_end) :
    ∃ r l, create_lane_lists (.defs [d]) (.consts c) tot w = .ok (r, l) ∧
      r.map bnds = [(0, d.s_end)] ∧ l.map bnds = [(0, d.s_end)] := by
  have hbody : sweepBody ⟨none, some c, tot, w⟩ ⟨0, 0, 0, [d], [], [], []⟩ =
      .ok ⟨d.s_end, 1, 0, [checkLaneWidths w d], [], [checkLaneWidths w d],
        [LaneDef.init 0 d.s_end c c none (List.replicate c w)
          (List.replicate c w)]⟩ := by
    exact sweepBody_onlyRight ⟨none, some c, tot, w⟩
      ⟨0, 0, 0, [d], [], [], []⟩ d tot c rfl hd0
      (sideInfo_const c [] 0 0 tot rfl)
  have hrun : sweepLoop ⟨none, some c, tot, w⟩ 4
      ⟨0, 0, 0, [d], [], [], []⟩ =
      .ok ⟨d.s_end, 1, 0, [checkLaneWidths w d], [], [checkLaneWidths w d],
        [LaneDef.init 0 d.s_end c c none (List.replicate c w)
          (List.replicate c w)]⟩ := by
    rw [sweepLoop_step _ 3 _ h0, hbody]
    exact sweepLoop_stop _ 2 _ (not_lt.mpr (le_of_lt hend))
  have hrw : create_lane_lists (.defs [d]) (.consts c) tot w =
      match sweepLoop ⟨none, some c, tot, w⟩ 4
          ⟨0, 0, 0, [d], [], [], []⟩ with
      | .error e => .error e
      | .ok st => .ok (st.ret_right.map LaneDef.adjust_lane_widths,
          st.ret_left.map LaneDef.adjust_lane_widths) := rfl
  refine ⟨[(checkLaneWidths w d).adjust_lane_widths],
    [(LaneDef.init 0 d.s_end c c none (List.replicate c w)
      (List.replicate c w)).adjust_lane_widths], ?_, ?_, ?_⟩
  · rw [hrw, hrun]
    rfl
  · rw [List.map_cons, List.map_nil, adjust_bnds, check_bnds]
    simp [bnds, hd0]
  · rw [List.map_cons, List.map_nil, adjust_bnds]
    simp [bnds, LaneDef.init]

/-- Witness for `no_validation_overlong_descriptor` at the concrete
invalid input of the counterexample. -/
theorem no_validation_overlong_descriptor_witness :
    ce6Def.s_start = 0 ∧ (0 : ℚ) < 10 ∧ (10 : ℚ) < ce6Def.s_end ∧
    ∃ r l, create_lane_lists (.defs [ce6Def]) (.consts 1) 10 3 =
        .ok (r, l) ∧
      r.map bnds = [(0, ce6Def.s_end)] ∧
      l.map bnds = [(0, ce6Def.s_end)] := by
  exact ⟨by decide, by decide, by decide,
    no_validation_overlong_descriptor ce6Def 1 10 3 (by decide) (by decide)
      (by decide)⟩

/-! ## Claim C8: linker behaviour on malformed changed-lane indices -/

theorem pyLaneIdx_ok (c : ℕ) (i : ℤ) (h0 : 0 ≤ i) (hc : i < (c : ℤ)) :
    pyLaneIdx c i = .ok i.toNat := by
  unfold pyLaneIdx
  rw [if_pos h0, if_pos hc]

theorem pyLaneIdx_big (c : ℕ) (i : ℤ) (h0 : 0 ≤ i) (hc : (c : ℤ) ≤ i) :
    pyLaneIdx c i = .error .indexError := by
  unfold pyLaneIdx
  rw [if_pos h0, if_neg (not_lt.mpr hc)]

theorem pyLaneIdx_err_eq (c : ℕ) (i : ℤ) (e : PyErr)
    (h : pyLaneIdx c i = .error e) : e = .indexError := by
  unfold pyLaneIdx at h
  split at h
  · split at h
    · cases h
    · cases h
      rfl
  · split at h
    · cases h
    · cases h
      rfl

theorem linkPair_err_eq (pc cc : ℕ) (pi ci : ℤ) (e : PyErr)
    (h : linkPair pc cc pi ci = .error e) : e = .indexError := by
  unfold linkPair at h
  split at h
  · cases h
    exact pyLaneIdx_err_eq _ _ _ (by assumption)
  · split at h
    · cases h
      exact pyLaneIdx_err_eq _ _ _ (by assumption)
    · cases h

theorem linkPair_err_left (pc cc : ℕ) (pi ci : ℤ) (e : PyErr)
    (hp : pyLaneIdx pc pi = .error e) :
    linkPair pc cc pi ci = .error e := by
  unfold linkPair
  rw [hp]

theorem linkPair_ok (pc cc : ℕ) (pi ci : ℤ) (p q : ℕ)
    (hp : pyLaneIdx pc pi = .ok p) (hq : pyLaneIdx cc ci = .ok q) :
    linkPair pc cc pi ci = .ok (p, q) := by
  unfold linkPair
  rw [hp, hq]

/-- If every iteration of a linker loop can only raise the error `e`,
and some iteration definitely raises it, the loop raises `e`. -/
theorem collectLinks_forces_error
    (f : ℕ → Option (Except PyErr (ℕ × ℕ))) (e : PyErr) :
    ∀ js : List ℕ,
      (∀ j ∈ js, ∀ e', f j = some (.error e') → e' = e) →
      (∃ j ∈ js, f j = some (.error e)) →
      collectLinks f js = .error e := by
  intro js
  induction js with
  | nil => simp
  | cons a as ih =>
    intro hall hex
    have htall : ∀ j ∈ as, ∀ e', f j = some (.error e') → e' = e :=
      fun j hj => hall j (List.mem_cons_of_mem _ hj)
    unfold collectLinks
    cases hfa : f a with
    | none =>
      dsimp only
      obtain ⟨j, hj, hje⟩ := hex
      rcases List.mem_cons.mp hj with rfl | hj
      · rw [hfa] at hje
        cases hje
      · exact ih htall ⟨j, hj, hje⟩
    | some r =>
      cases r with
      | error e' =>
        dsimp only
        rw [hall a (List.mem_cons_self _ _) e' hfa]
      | ok v =>
        dsimp only
        have htail : collectLinks f as = .error e := by
          obtain ⟨j, hj, hje⟩ := hex
          rcases List.mem_cons.mp hj with rfl | hj
          · rw [hfa] at hje
            cases hje
          · exact ih htall ⟨j, hj, hje⟩
        rw [htail]

/-- The concrete plain predecessor section used to refute C8. -/
def ce8Prev : LaneDef :=
  { s_start := 0, s_end := 10, n_lanes_start := 1, n_lanes_end := 1 }

/-- The concrete split successor section with the malformed index
`sub_lane = 0` used to refute C8. -/
def ce8Cur : LaneDef :=
  { s_start := 10, s_end := 20, n_lanes_start := 1, n_lanes_end := 2, sub_lane := some 0 }

/-- Counterexample to C8 as stated: `sub_lane = 0` has absolute value
outside `[1, max(n_lanes_start, n_lanes_end)] = [1, 2]`, yet the linker
does NOT fail — Python's negative indexing (`rightlanes[j - 1]` with
`j = 0` wraps to the last lane) silently produces the links
`[(0, 0), (0, 1)]`, in which predecessor lane `0` is linked to two
different successors. -/
theorem linker_zero_index_counterexample :
    rightBoundaryLinks ce8Prev ce8Cur = .ok [(0, 0), (0, 1)] ∧
    ((0 : ℤ).natAbs <
      1 ∨ max ce8Cur.n_lanes_start ce8Cur.n_lanes_end < (0 : ℤ).natAbs) ∧
    ¬([(0, 0), (0, 1)].map Prod.fst).Nodup := by
  refine ⟨by decide, by decide, by decide⟩

/-- C8 (amended): only part of the malformed range fails loudly.  A
changed-lane index below the valid negative range (`s < -(N + 1)`,
i.e. `abs(s) > max(n_start, n_end)` on the right side) makes every loop
iteration address predecessor lane `j`, and iteration `j = N` is out of
range, so the linker raises `IndexError`; but `sub_lane = 0` (absolute
value below the range) wraps around via Python negative indexing and
silently mis-assigns links instead of failing. -/
theorem linker_negative_overflow_errors (prev cur : LaneDef) (s : ℤ)
    (N : ℕ) (hN : prev.n_lanes_end = N) (hple : prev.n_lanes_start ≤ N)
    (hsplit : cur.n_lanes_start < cur.n_lanes_end)
    (hsub : cur.sub_lane = some s) (hs : s < -((N : ℤ) + 1)) :
    rightBoundaryLinks prev cur = .error .indexError := by
  unfold rightBoundaryLinks
  rw [if_pos hsplit, hsub]
  have hPC : max prev.n_lanes_start prev.n_lanes_end = N := by
    rw [hN]
    exact Nat.max_eq_right hple
  apply collectLinks_forces_error
  · intro j hj e' hfe
    rw [hN] at hj
    have hjN : (j : ℤ) ≤ (N : ℤ) := by
      exact_mod_cast Nat.lt_succ_iff.mp (List.mem_range.mp hj)
    have hjs : s < -((j : ℤ) + 1) := by linarith
    rw [if_pos hjs] at hfe
    exact linkPair_err_eq _ _ _ _ _ (Option.some.inj hfe)
  · have hlp : linkPair (max prev.n_lanes_start prev.n_lanes_end)
        (max cur.n_lanes_start cur.n_lanes_end) (N : ℤ) (N : ℤ) =
        .error .indexError := by
      apply linkPair_err_left
      rw [hPC]
      exact pyLaneIdx_big N N (Int.natCast_nonneg N) (le_refl _)
    refine ⟨N, ?_, ?_⟩
    · rw [hN]
      exact List.mem_range.mpr (Nat.lt_succ_self N)
    · simp only [if_pos hs, hlp]

/-- Witness for `linker_negative_overflow_errors`: a `1 → 2` split with
`sub_lane = -3` (absolute value `3 > max = 2`) raises `IndexError`. -/
theorem linker_negative_overflow_errors_witness :
    rightBoundaryLinks
      { s_start := 0, s_end := 10, n_lanes_start := 1, n_lanes_end := 1 }
      { s_start := 10, s_end := 20, n_lanes_start := 1, n_lanes_end := 2, sub_lane := some (-3) } =
      .error .indexError := by
  exact linker_negative_overflow_errors _ _ (-3) 1 rfl (by decide)
    (by decide) rfl (by decide)

/-! ## Claim C3: characterization of the linker at one boundary -/

/-- When no iteration of a linker loop raises, the loop collects exactly
the `filterMap` of the per-iteration link function. -/
theorem collectLinks_eq_filterMap
    (f : ℕ → Option (Except PyErr (ℕ × ℕ))) (g : ℕ → Option (ℕ × ℕ)) :
    ∀ js : List ℕ, (∀ j ∈ js, f j = (g j).map Except.ok) →
      collectLinks f js = .ok (js.filterMap g) := by
  intro js
  induction js with
  | nil => intro; rfl
  | cons a as ih =>
    intro hall
    have ha := hall a (List.mem_cons_self _ _)
    have htail := ih (fun j hj => hall j (List.mem_cons_of_mem _ hj))
    unfold collectLinks
    cases hg : g a with
    | none =>
      rw [hg] at ha
      rw [ha]
      simp only [Option.map_none']
      rw [htail, List.filterMap_cons_none hg]
    | some v =>
      rw [hg] at ha
      rw [ha]
      simp only [Option.map_some']
      rw [htail, List.filterMap_cons_some hg]

/-- The per-iteration link function of a single-lane SPLIT boundary with
changed-lane position `a - 1` (1-based `a`): the new lane is skipped,
lanes below it link straight across, lanes above it shift the
predecessor index down by one. -/
def splitShape (a : ℕ) (j : ℕ) : Option (ℕ × ℕ) :=
  if j < a - 1 then some (j, j)
  else if j = a - 1 then none
  else some (j - 1, j)

/-- The per-iteration link function of a single-lane MERGE boundary with
changed-lane position `a - 1`: the removed lane is skipped, lanes below
it link straight across, lanes above it shift the successor index down
by one. -/
def mergeShape (a : ℕ) (j : ℕ) : Option (ℕ × ℕ) :=
  if j < a - 1 then some (j, j)
  else if j = a - 1 then none
  else some (j, j - 1)

theorem splitShape_some (a j : ℕ) (pq : ℕ × ℕ)
    (h : splitShape a j = some pq) :
    (j < a - 1 ∧ pq.1 = j ∧ pq.2 = j) ∨
    (a - 1 < j ∧ pq.1 = j - 1 ∧ pq.2 = j ∧ 1 ≤ j) := by
  unfold splitShape at h
  split at h
  · cases h
    exact Or.inl ⟨by assumption, rfl, rfl⟩
  · split at h
    · cases h
    · cases h
      refine Or.inr ⟨by omega, rfl, rfl, by omega⟩

theorem mergeShape_some (a j : ℕ) (pq : ℕ × ℕ)
    (h : mergeShape a j = some pq) :
    (j < a - 1 ∧ pq.1 = j ∧ pq.2 = j) ∨
    (a - 1 < j ∧ pq.1 = j ∧ pq.2 = j - 1 ∧ 1 ≤ j) := by
  unfold mergeShape at h
  split at h
  · cases h
    exact Or.inl ⟨by assumption, rfl, rfl⟩
  · split at h
    · cases h
    · cases h
      refine Or.inr ⟨by omega, rfl, rfl, by omega⟩

theorem splitShape_props (a N : ℕ) (ha1 : 1 ≤ a) (ha2 : a ≤ N + 1) :
    (∀ pq ∈ (List.range (N + 1)).filterMap (splitShape a),
      pq.2 ≠ a - 1 ∧ pq.1 < N ∧ pq.2 < N + 1 ∧
      (pq.2 < a - 1 → pq.1 = pq.2) ∧ (a - 1 < pq.2 → pq.1 + 1 = pq.2)) ∧
    (∀ q < N + 1, q ≠ a - 1 →
      ∃ pq ∈ (List.range (N + 1)).filterMap (splitShape a), pq.2 = q) ∧
    ((((List.range (N + 1)).filterMap (splitShape a)).map Prod.fst).Nodup) ∧
    ((((List.range (N + 1)).filterMap (splitShape a)).map Prod.snd).Nodup)
    := by
  refine ⟨?_, ?_, ?_, ?_⟩
  · intro pq hpq
    obtain ⟨j, hj, hgj⟩ := List.mem_filterMap.mp hpq
    have hjN : j < N + 1 := List.mem_range.mp hj
    rcases splitShape_some a j pq hgj with ⟨h1, h2, h3⟩ | ⟨h1, h2, h3, h4⟩ <;>
      omega
  · intro q hq hqa
    by_cases hcase : q < a - 1
    · refine ⟨(q, q), List.mem_filterMap.mpr
        ⟨q, List.mem_range.mpr hq, ?_⟩, rfl⟩
      unfold splitShape
      rw [if_pos hcase]
    · refine ⟨(q - 1, q), List.mem_filterMap.mpr
        ⟨q, List.mem_range.mpr hq, ?_⟩, rfl⟩
      unfold splitShape
      rw [if_neg hcase, if_neg hqa]
  · rw [List.map_filterMap]
    refine List.Nodup.filterMap ?_ (List.nodup_range _)
    intro j j' b hb hb'
    rw [Option.mem_def, Option.map_eq_some'] at hb hb'
    obtain ⟨pq, hpq, hfst⟩ := hb
    obtain ⟨pq', hpq', hfst'⟩ := hb'
    rcases splitShape_some a j pq hpq with ⟨h1, h2, h3⟩ | ⟨h1, h2, h3, h4⟩ <;>
      rcases splitShape_some a j' pq' hpq' with ⟨g1, g2, g3⟩ |
        ⟨g1, g2, g3, g4⟩ <;> omega
  · rw [List.map_filterMap]
    refine List.Nodup.filterMap ?_ (List.nodup_range _)
    intro j j' b hb hb'
    rw [Option.mem_def, Option.map_eq_some'] at hb hb'
    obtain ⟨pq, hpq, hsnd⟩ := hb
    obtain ⟨pq', hpq', hsnd'⟩ := hb'
    rcases splitShape_some a j pq hpq with ⟨h1, h2, h3⟩ | ⟨h1, h2, h3, h4⟩ <;>
      rcases splitShape_some a j' pq' hpq' with ⟨g1, g2, g3⟩ |
        ⟨g1, g2, g3, g4⟩ <;> omega

theorem mergeShape_props (a N : ℕ) (ha1 : 1 ≤ a) (ha2 : a ≤ N + 1) :
    (∀ pq ∈ (List.range (N + 1)).filterMap (mergeShape a),
      pq.1 ≠ a - 1 ∧ pq.1 < N + 1 ∧ pq.2 < N ∧
      (pq.1 < a - 1 → pq.2 = pq.1) ∧ (a - 1 < pq.1 → pq.2 + 1 = pq.1)) ∧
    (∀ p < N + 1, p ≠ a - 1 →
      ∃ pq ∈ (List.range (N + 1)).filterMap (mergeShape a), pq.1 = p) ∧
    ((((List.range (N + 1)).filterMap (mergeShape a)).map Prod.fst).Nodup) ∧
    ((((List.range (N + 1)).filterMap (mergeShape a)).map Prod.snd).Nodup)
    := by
  refine ⟨?_, ?_, ?_, ?_⟩
  · intro pq hpq
    obtain ⟨j, hj, hgj⟩ := List.mem_filterMap.mp hpq
    have hjN : j < N + 1 := List.mem_range.mp hj
    rcases mergeShape_some a j pq hgj with ⟨h1, h2, h3⟩ | ⟨h1, h2, h3, h4⟩ <;>
      omega
  · intro p hp hpa
    by_cases hcase : p < a - 1
    · refine ⟨(p, p), List.mem_filterMap.mpr
        ⟨p, List.mem_range.mpr hp, ?_⟩, rfl⟩
      unfold mergeShape
      rw [if_pos hcase]
    · refine ⟨(p, p - 1), List.mem_filterMap.mpr
        ⟨p, List.mem_range.mpr hp, ?_⟩, rfl⟩
      unfold mergeShape
      rw [if_neg hcase, if_neg hpa]
  · rw [List.map_filterMap]
    refine List.Nodup.filterMap ?_ (List.nodup_range _)
    intro j j' b hb hb'
    rw [Option.mem_def, Option.map_eq_some'] at hb hb'
    obtain ⟨pq, hpq, hfst⟩ := hb
    obtain ⟨pq', hpq', hfst'⟩ := hb'
    rcases mergeShape_some a j pq hpq with ⟨h1, h2, h3⟩ | ⟨h1, h2, h3, h4⟩ <;>
      rcases mergeShape_some a j' pq' hpq' with ⟨g1, g2, g3⟩ |
        ⟨g1, g2, g3, g4⟩ <;> omega
  · rw [List.map_filterMap]
    refine List.Nodup.filterMap ?_ (List.nodup_range _)
    intro j j' b hb hb'
    rw [Option.mem_def, Option.map_eq_some'] at hb hb'
    obtain ⟨pq, hpq, hsnd⟩ := hb
    obtain ⟨pq', hpq', hsnd'⟩ := hb'
    rcases mergeShape_some a j pq hpq with ⟨h1, h2, h3⟩ | ⟨h1, h2, h3, h4⟩ <;>
      rcases mergeShape_some a j' pq' hpq' with ⟨g1, g2, g3⟩ |
        ⟨g1, g2, g3, g4⟩ <;> omega

theorem pyLaneIdx_natCast (c j : ℕ) (h : j < c) :
    pyLaneIdx c (j : ℤ) = .ok j := by
  unfold pyLaneIdx
  rw [if_pos (Int.natCast_nonneg j), if_pos (by exact_mod_cast h)]
  simp

theorem pyLaneIdx_natCast_sub_one (c j : ℕ) (h1 : 1 ≤ j)
    (h : j - 1 < c) : pyLaneIdx c ((j : ℤ) - 1) = .ok (j - 1) := by
  unfold pyLaneIdx
  rw [if_pos (by omega), if_pos (by omega)]
  have ht : ((j : ℤ) - 1).toNat = j - 1 := by omega
  rw [ht]

/-- The same-count branch of the right linker: links `j ↦ j` for every
`j` below the shared boundary lane count. -/
theorem rightBoundaryLinks_same (prev cur : LaneDef) (N : ℕ)
    (hpe : prev.n_lanes_end = N) (hcs : cur.n_lanes_start = N)
    (h1 : cur.n_lanes_end ≤ cur.n_lanes_start)
    (h2 : prev.n_lanes_start ≤ prev.n_lanes_end) :
    rightBoundaryLinks prev cur =
      .ok ((List.range N).map fun j => (j, j)) := by
  have hpc : N ≤ max prev.n_lanes_start prev.n_lanes_end := by
    rw [hpe]
    exact le_max_right _ _
  have hcc : N ≤ max cur.n_lanes_start cur.n_lanes_end := by
    rw [← hcs]
    exact le_max_left _ _
  unfold rightBoundaryLinks
  rw [if_neg (not_lt.mpr h1), if_neg (not_lt.mpr h2), hpe]
  have heq : (List.range N).filterMap (fun j => some ((j, j) : ℕ × ℕ)) =
      (List.range N).map (fun j => ((j, j) : ℕ × ℕ)) :=
    congrFun (List.filterMap_eq_map _) (List.range N)
  rw [← heq]
  apply collectLinks_eq_filterMap
  intro j hj
  have hjN : j < N := List.mem_range.mp hj
  rw [linkPair_ok _ _ _ _ j j (pyLaneIdx_natCast _ j (by omega))
    (pyLaneIdx_natCast _ j (by omega))]
  rfl

/-- The same-count branch of the left linker. -/
theorem leftBoundaryLinks_same (prev cur : LaneDef) (N : ℕ)
    (hpe : prev.n_lanes_end = N) (hcs : cur.n_lanes_start = N)
    (h1 : cur.n_lanes_end ≤ cur.n_lanes_start)
    (h2 : prev.n_lanes_start ≤ prev.n_lanes_end) :
    leftBoundaryLinks prev cur =
      .ok ((List.range N).map fun j => (j, j)) := by
  have hpc : N ≤ max prev.n_lanes_start prev.n_lanes_end := by
    rw [hpe]
    exact le_max_right _ _
  have hcc : N ≤ max cur.n_lanes_start cur.n_lanes_end := by
    rw [← hcs]
    exact le_max_left _ _
  unfold leftBoundaryLinks
  rw [if_neg (not_lt.mpr h1), if_neg (not_lt.mpr h2), hpe]
  have heq : (List.range N).filterMap (fun j => some ((j, j) : ℕ × ℕ)) =
      (List.range N).map (fun j => ((j, j) : ℕ × ℕ)) :=
    congrFun (List.filterMap_eq_map _) (List.range N)
  rw [← heq]
  apply collectLinks_eq_filterMap
  intro j hj
  have hjN : j < N := List.mem_range.mp hj
  rw [linkPair_ok _ _ _ _ j j (pyLaneIdx_natCast _ j (by omega))
    (pyLaneIdx_natCast _ j (by omega))]
  rfl

/-- The right linker at a single-lane split boundary produces exactly
the split-shape links. -/
theorem rightBoundaryLinks_split (prev cur : LaneDef) (N : ℕ) (s : ℤ)
    (hpe : prev.n_lanes_end = N) (hcs : cur.n_lanes_start = N)
    (hce : cur.n_lanes_end = N + 1) (hsub : cur.sub_lane = some s)
    (hs1 : s ≤ -1) (hs2 : -((N : ℤ) + 1) ≤ s) :
    rightBoundaryLinks prev cur =
      .ok ((List.range (N + 1)).filterMap (splitShape (-s).toNat)) := by
  have hpc : N ≤ max prev.n_lanes_start prev.n_lanes_end := by
    rw [hpe]
    exact le_max_right _ _
  have hcc : N + 1 ≤ max cur.n_lanes_start cur.n_lanes_end := by
    rw [← hce]
    exact le_max_right _ _
  unfold rightBoundaryLinks
  rw [if_pos (by omega : cur.n_lanes_start < cur.n_lanes_end), hsub, hpe]
  apply collectLinks_eq_filterMap
  intro j hj
  have hjN : j < N + 1 := List.mem_range.mp hj
  have hadef : ((-s).toNat : ℤ) = -s := by omega
  by_cases hlt : j < (-s).toNat - 1
  · rw [if_pos (by omega : s < -((j : ℤ) + 1))]
    unfold splitShape
    rw [if_pos hlt]
    rw [linkPair_ok _ _ _ _ j j (pyLaneIdx_natCast _ j (by omega))
      (pyLaneIdx_natCast _ j (by omega))]
    rfl
  · by_cases heq : j = (-s).toNat - 1
    · rw [if_neg (by omega : ¬s < -((j : ℤ) + 1)),
        if_neg (by omega : ¬s > -((j : ℤ) + 1))]
      unfold splitShape
      rw [if_neg hlt, if_pos heq]
      rfl
    · rw [if_neg (by omega : ¬s < -((j : ℤ) + 1)),
        if_pos (by omega : s > -((j : ℤ) + 1))]
      unfold splitShape
      rw [if_neg hlt, if_neg heq]
      rw [linkPair_ok _ _ _ _ (j - 1) j
        (pyLaneIdx_natCast_sub_one _ j (by omega) (by omega))
        (pyLaneIdx_natCast _ j (by omega))]
      rfl

/-- The right linker at a single-lane merge boundary produces exactly
the merge-shape links. -/
theorem rightBoundaryLinks_merge (prev cur : LaneDef) (N : ℕ) (s : ℤ)
    (hpe : prev.n_lanes_end = N) (hps : prev.n_lanes_start = N + 1)
    (hcs : cur.n_lanes_start = N)
    (hcne : cur.n_lanes_end ≤ cur.n_lanes_start)
    (hsub : prev.sub_lane = some s)
    (hs1 : s ≤ -1) (hs2 : -((N : ℤ) + 1) ≤ s) :
    rightBoundaryLinks prev cur =
      .ok ((List.range (N + 1)).filterMap (mergeShape (-s).toNat)) := by
  have hpc : N + 1 ≤ max prev.n_lanes_start prev.n_lanes_end := by
    rw [← hps]
    exact le_max_left _ _
  have hcc : N ≤ max cur.n_lanes_start cur.n_lanes_end := by
    rw [← hcs]
    exact le_max_left _ _
  unfold rightBoundaryLinks
  rw [if_neg (not_lt.mpr hcne),
    if_pos (by omega : prev.n_lanes_end < prev.n_lanes_start), hsub, hpe]
  apply collectLinks_eq_filterMap
  intro j hj
  have hjN : j < N + 1 := List.mem_range.mp hj
  have hadef : ((-s).toNat : ℤ) = -s := by omega
  by_cases hlt : j < (-s).toNat - 1
  · rw [if_pos (by omega : s < -((j : ℤ) + 1))]
    unfold mergeShape
    rw [if_pos hlt]
    rw [linkPair_ok _ _ _ _ j j (pyLaneIdx_natCast _ j (by omega))
      (pyLaneIdx_natCast _ j (by omega))]
    rfl
  · by_cases heq : j = (-s).toNat - 1
    · rw [if_neg (by omega : ¬s < -((j : ℤ) + 1)),
        if_neg (by omega : ¬s > -((j : ℤ) + 1))]
      unfold mergeShape
      rw [if_neg hlt, if_pos heq]
      rfl
    · rw [if_neg (by omega : ¬s < -((j : ℤ) + 1)),
        if_pos (by omega : s > -((j : ℤ) + 1))]
      unfold mergeShape
      rw [if_neg hlt, if_neg heq]
      rw [linkPair_ok _ _ _ _ j (j - 1)
        (pyLaneIdx_natCast _ j (by omega))
        (pyLaneIdx_natCast_sub_one _ j (by omega) (by omega))]
      rfl

/-- The left linker at a single-lane split boundary produces exactly
the split-shape links (`sub_lane` is positive on the left side). -/
theorem leftBoundaryLinks_split (prev cur : LaneDef) (N : ℕ) (s : ℤ)
    (hpe : prev.n_lanes_end = N) (hcs : cur.n_lanes_start = N)
    (hce : cur.n_lanes_end = N + 1) (hsub : cur.sub_lane = some s)
    (hs1 : 1 ≤ s) (hs2 : s ≤ (N : ℤ) + 1) :
    leftBoundaryLinks prev cur =
      .ok ((List.range (N + 1)).filterMap (splitShape s.toNat)) := by
  have hpc : N ≤ max prev.n_lanes_start prev.n_lanes_end := by
    rw [hpe]
    exact le_max_right _ _
  have hcc : N + 1 ≤ max cur.n_lanes_start cur.n_lanes_end := by
    rw [← hce]
    exact le_max_right _ _
  unfold leftBoundaryLinks
  rw [if_pos (by omega : cur.n_lanes_start < cur.n_lanes_end), hsub, hpe]
  apply collectLinks_eq_filterMap
  intro j hj
  have hjN : j < N + 1 := List.mem_range.mp hj
  have hadef : (s.toNat : ℤ) = s := by omega
  by_cases hlt : j < s.toNat - 1
  · rw [if_neg (by omega : ¬s < (j : ℤ) + 1),
      if_pos (by omega : s > (j : ℤ) + 1)]
    unfold splitShape
    rw [if_pos hlt]
    rw [linkPair_ok _ _ _ _ j j (pyLaneIdx_natCast _ j (by omega))
      (pyLaneIdx_natCast _ j (by omega))]
    rfl
  · by_cases heq : j = s.toNat - 1
    · rw [if_neg (by omega : ¬s < (j : ℤ) + 1),
        if_neg (by omega : ¬s > (j : ℤ) + 1)]
      unfold splitShape
      rw [if_neg hlt, if_pos heq]
      rfl
    · rw [if_pos (by omega : s < (j : ℤ) + 1)]
      unfold splitShape
      rw [if_neg hlt, if_neg heq]
      rw [linkPair_ok _ _ _ _ (j - 1) j
        (pyLaneIdx_natCast_sub_one _ j (by omega) (by omega))
        (pyLaneIdx_natCast _ j (by omega))]
      rfl

/-- The left linker at a single-lane merge boundary produces exactly
the merge-shape links. -/
theorem leftBoundaryLinks_merge (prev cur : LaneDef) (N : ℕ) (s : ℤ)
    (hpe : prev.n_lanes_end = N) (hps : prev.n_lanes_start = N + 1)
    (hcs : cur.n_lanes_start = N)
    (hcne : cur.n_lanes_end ≤ cur.n_lanes_start)
    (hsub : prev.sub_lane = some s)
    (hs1 : 1 ≤ s) (hs2 : s ≤ (N : ℤ) + 1) :
    leftBoundaryLinks prev cur =
      .ok ((List.range (N + 1)).filterMap (mergeShape s.toNat)) := by
  have hpc : N + 1 ≤ max prev.n_lanes_start prev.n_lanes_end := by
    rw [← hps]
    exact le_max_left _ _
  have hcc : N ≤ max cur.n_lanes_start cur.n_lanes_end := by
    rw [← hcs]
    exact le_max_left _ _
  unfold leftBoundaryLinks
  rw [if_neg (not_lt.mpr hcne),
    if_pos (by omega : prev.n_lanes_end < prev.n_lanes_start), hsub, hpe]
  apply collectLinks_eq_filterMap
  intro j hj
  have hjN : j < N + 1 := List.mem_range.mp hj
  have hadef : (s.toNat : ℤ) = s := by omega
  by_cases hlt : j < s.toNat - 1
  · rw [if_neg (by omega : ¬s < (j : ℤ) + 1),
      if_pos (by omega : s > (j : ℤ) + 1)]
    unfold mergeShape
    rw [if_pos hlt]
    rw [linkPair_ok _ _ _ _ j j (pyLaneIdx_natCast _ j (by omega))
      (pyLaneIdx_natCast _ j (by omega))]
    rfl
  · by_cases heq : j = s.toNat - 1
    · rw [if_neg (by omega : ¬s < (j : ℤ) + 1),
        if_neg (by omega : ¬s > (j : ℤ) + 1)]
      unfold mergeShape
      rw [if_neg hlt, if_pos heq]
      rfl
    · rw [if_pos (by omega : s < (j : ℤ) + 1)]
      unfold mergeShape
      rw [if_neg hlt, if_neg heq]
      rw [linkPair_ok _ _ _ _ j (j - 1)
        (pyLaneIdx_natCast _ j (by omega))
        (pyLaneIdx_natCast_sub_one _ j (by omega) (by omega))]
      rfl

/-- C3: at every boundary between adjacent lane sections with boundary
lane count `N` (`prev.n_lanes_end = N = cur.n_lanes_start`) and a valid
changed-lane index: (1) when the count does not change (the following
section is not a split and the preceding one is not a merge) each side
links lane `j` to lane `j` for every `j < N`; (2)–(5) at a single-lane
split or merge on either side, writing `a - 1` for the changed lane
position: the new lane gets no predecessor (resp. the removed lane no
successor), every other lane links straight across below the changed
position and shifts by exactly one index above it, the emitted link
indices stay in range, every other lane of the changed section is
covered by a link, and no lane appears as predecessor in more than one
link or as successor in more than one link. -/
theorem linker_boundary_cases (N : ℕ) (prev cur : LaneDef)
    (hpe : prev.n_lanes_end = N) (hcs : cur.n_lanes_start = N) :
    ((cur.n_lanes_end ≤ cur.n_lanes_start →
      prev.n_lanes_start ≤ prev.n_lanes_end →
      rightBoundaryLinks prev cur =
        .ok ((List.range N).map fun j => (j, j)) ∧
      leftBoundaryLinks prev cur =
        .ok ((List.range N).map fun j => (j, j)))) ∧
    (∀ s : ℤ, cur.n_lanes_end = N + 1 → cur.sub_lane = some s →
      -((N : ℤ) + 1) ≤ s → s ≤ -1 →
      ∃ L, rightBoundaryLinks prev cur = .ok L ∧
        (∀ pq ∈ L, pq.2 ≠ (-s).toNat - 1 ∧ pq.1 < N ∧ pq.2 < N + 1 ∧
          (pq.2 < (-s).toNat - 1 → pq.1 = pq.2) ∧
          ((-s).toNat - 1 < pq.2 → pq.1 + 1 = pq.2)) ∧
        (∀ q < N + 1, q ≠ (-s).toNat - 1 → ∃ pq ∈ L, pq.2 = q) ∧
        (L.map Prod.fst).Nodup ∧ (L.map Prod.snd).Nodup) ∧
    (∀ s : ℤ, prev.n_lanes_start = N + 1 →
      cur.n_lanes_end ≤ cur.n_lanes_start → prev.sub_lane = some s →
      -((N : ℤ) + 1) ≤ s → s ≤ -1 →
      ∃ L, rightBoundaryLinks prev cur = .ok L ∧
        (∀ pq ∈ L, pq.1 ≠ (-s).toNat - 1 ∧ pq.1 < N + 1 ∧ pq.2 < N ∧
          (pq.1 < (-s).toNat - 1 → pq.2 = pq.1) ∧
          ((-s).toNat - 1 < pq.1 → pq.2 + 1 = pq.1)) ∧
        (∀ p < N + 1, p ≠ (-s).toNat - 1 → ∃ pq ∈ L, pq.1 = p) ∧
        (L.map Prod.fst).Nodup ∧ (L.map Prod.snd).Nodup) ∧
    (∀ s : ℤ, cur.n_lanes_end = N + 1 → cur.sub_lane = some s →
      1 ≤ s → s ≤ (N : ℤ) + 1 →
      ∃ L, leftBoundaryLinks prev cur = .ok L ∧
        (∀ pq ∈ L, pq.2 ≠ s.toNat - 1 ∧ pq.1 < N ∧ pq.2 < N + 1 ∧
          (pq.2 < s.toNat - 1 → pq.1 = pq.2) ∧
          (s.toNat - 1 < pq.2 → pq.1 + 1 = pq.2)) ∧
        (∀ q < N + 1, q ≠ s.toNat - 1 → ∃ pq ∈ L, pq.2 = q) ∧
        (L.map Prod.fst).Nodup ∧ (L.map Prod.snd).Nodup) ∧
    (∀ s : ℤ, prev.n_lanes_start = N + 1 →
      cur.n_lanes_end ≤ cur.n_lanes_start → prev.sub_lane = some s →
      1 ≤ s → s ≤ (N : ℤ) + 1 →
      ∃ L, leftBoundaryLinks prev cur = .ok L ∧
        (∀ pq ∈ L, pq.1 ≠ s.toNat - 1 ∧ pq.1 < N + 1 ∧ pq.2 < N ∧
          (pq.1 < s.toNat - 1 → pq.2 = pq.1) ∧
          (s.toNat - 1 < pq.1 → pq.2 + 1 = pq.1)) ∧
        (∀ p < N + 1, p ≠ s.toNat - 1 → ∃ pq ∈ L, pq.1 = p) ∧
        (L.map Prod.fst).Nodup ∧ (L.map Prod.snd).Nodup) := by
  refine ⟨?_, ?_, ?_, ?_, ?_⟩
  · intro h1 h2
    exact ⟨rightBoundaryLinks_same prev cur N hpe hcs h1 h2,
      leftBoundaryLinks_same prev cur N hpe hcs h1 h2⟩
  · intro s hce hsub hs2 hs1
    refine ⟨_, rightBoundaryLinks_split prev cur N s hpe hcs hce hsub
      hs1 hs2, ?_, ?_, ?_, ?_⟩ <;>
      have hp := splitShape_props (-s).toNat N (by omega) (by omega)
    · exact hp.1
    · exact hp.2.1
    · exact hp.2.2.1
    · exact hp.2.2.2
  · intro s hps hcne hsub hs2 hs1
    refine ⟨_, rightBoundaryLinks_merge prev cur N s hpe hps hcs hcne
      hsub hs1 hs2, ?_, ?_, ?_, ?_⟩ <;>
      have hp := mergeShape_props (-s).toNat N (by omega) (by omega)
    · exact hp.1
    · exact hp.2.1
    · exact hp.2.2.1
    · exact hp.2.2.2
  · intro s hce hsub hs1 hs2
    refine ⟨_, leftBoundaryLinks_split prev cur N s hpe hcs hce hsub
      hs1 hs2, ?_, ?_, ?_, ?_⟩ <;>
      have hp := splitShape_props s.toNat N (by omega) (by omega)
    · exact hp.1
    · exact hp.2.1
    · exact hp.2.2.1
    · exact hp.2.2.2
  · intro s hps hcne hsub hs1 hs2
    refine ⟨_, leftBoundaryLinks_merge prev cur N s hpe hps hcs hcne
      hsub hs1 hs2, ?_, ?_, ?_, ?_⟩ <;>
      have hp := mergeShape_props s.toNat N (by omega) (by omega)
    · exact hp.1
    · exact hp.2.1
    · exact hp.2.2.1
    · exact hp.2.2.2

/-- Witness for `linker_boundary_cases`: a plain `2 → 2` boundary links
`[(0,0), (1,1)]` on both sides, and the `2 → 3` right split with
`sub_lane = -3` produces links with duplicate-free predecessor and
successor indices. -/
theorem linker_boundary_cases_witness :
    (rightBoundaryLinks
        { s_start := 0, s_end := 10, n_lanes_start := 2, n_lanes_end := 2 }
        { s_start := 10, s_end := 20, n_lanes_start := 2, n_lanes_end := 2 } =
      .ok [(0, 0), (1, 1)]) ∧
    (∃ L, rightBoundaryLinks
        { s_start := 0, s_end := 10, n_lanes_start := 2, n_lanes_end := 2 }
        { s_start := 10, s_end := 20, n_lanes_start := 2, n_lanes_end := 3, sub_lane := some (-3) } =
      .ok L ∧ (L.map Prod.fst).Nodup ∧ (L.map Prod.snd).Nodup) := by
  constructor
  · have h := (linker_boundary_cases 2
      { s_start := 0, s_end := 10, n_lanes_start := 2, n_lanes_end := 2 }
      { s_start := 10, s_end := 20, n_lanes_start := 2, n_lanes_end := 2 }
      rfl rfl).1 (by decide) (by decide)
    rw [h.1]
    rfl
  · obtain ⟨L, hL, hmem, hcov, hf, hs⟩ := (linker_boundary_cases 2
      { s_start := 0, s_end := 10, n_lanes_start := 2, n_lanes_end := 2 }
      { s_start := 10, s_end := 20, n_lanes_start := 2, n_lanes_end := 3, sub_lane := some (-3) }
      rfl rfl).2.1 (-3) rfl rfl (by decide) (by decide)
    exact ⟨L, hL, hf, hs⟩

/-! ## Claim C7: the sweep loop terminates (the fuel always suffices) -/

/-- Number of not-yet-consumed user descriptors. -/
def sweepRem (st : SweepState) : ℕ :=
  (st.rdefs.length - st.r_it) + (st.ldefs.length - st.l_it)

/-- One of the two sides has a pending descriptor starting exactly at
the swept position (so the next iteration consumes it). -/
def pendAt (st : SweepState) : Prop :=
  (∃ d, st.rdefs[st.r_it]? = some d ∧ d.s_start = st.present_s) ∨
  (∃ d, st.ldefs[st.l_it]? = some d ∧ d.s_start = st.present_s)

theorem pyIdx_err {α : Type} (xs : List α) (i : ℤ) (e : PyErr)
    (h : pyIdx xs i = .error e) : e = .indexError := by
  unfold pyIdx at h
  split at h
  · split at h
    · cases h
    · cases h
      rfl
  · split at h
    · split at h
      · cases h
      · cases h
        rfl
    · cases h
      rfl

theorem sideInfo_err (c : Option ℕ) (ds : List LaneDef) (it : ℕ)
    (p tot : ℚ) (e : PyErr) (h : sideInfo c ds it p tot = .error e) :
    e = .indexError := by
  unfold sideInfo at h
  split at h
  · split at h <;> cases h
  · split at h
    · cases h
    · split at h
      · cases h
      · cases h
        rfl

theorem fillerWidths_err (w : ℚ) (n : ℕ) (ds : List LaneDef) (it : ℕ)
    (e : PyErr) (h : fillerWidths w n ds it = .error e) :
    e = .indexError := by
  unfold fillerWidths at h
  split at h
  · split at h
    · cases h
      exact pyIdx_err _ _ _ (by assumption)
    · split at h <;> cases h
  · split at h
    · split at h <;> cases h
    · cases h
      rfl

theorem fillerSide_err (c : Option ℕ) (w : ℚ) (n : ℕ)
    (ds : List LaneDef) (it : ℕ) (p se : ℚ) (e : PyErr)
    (h : fillerSide c w n ds it p se = .error e) : e = .indexError := by
  unfold fillerSide at h
  split at h
  · cases h
  · split at h
    · cases h
      exact fillerWidths_err _ _ _ _ _ (by assumption)
    · cases h

theorem sideInfo_shape (c : Option ℕ) (ds : List LaneDef) (it : ℕ)
    (p tot : ℚ) (add : Bool) (nx : ℚ) (n : ℕ)
    (h : sideInfo c ds it p tot = .ok (add, nx, n)) :
    (add = true → ∃ d, ds[it]? = some d ∧ d.s_start = p) ∧
    (add = false →
      (∃ d, ds[it]? = some d ∧ d.s_start ≠ p ∧ nx = d.s_start) ∨
      (ds[it]? = none ∧ nx = tot)) := by
  cases hd : ds[it]? with
  | some d =>
    by_cases hsp : d.s_start = p
    · rw [sideInfo_add c ds it p tot d hd hsp] at h
      cases h
      constructor
      · intro ht
        exact ⟨d, rfl, hsp⟩
      · intro hf
        cases hf
    · rw [sideInfo_pending c ds it p tot d hd hsp] at h
      cases h
      constructor
      · intro ht
        cases ht
      · intro hf
        exact Or.inl ⟨d, rfl, hsp, rfl⟩
  | none =>
    cases c with
    | some cc =>
      rw [sideInfo_const cc ds it p tot hd] at h
      cases h
      constructor
      · intro ht
        cases ht
      · intro hf
        exact Or.inr ⟨rfl, rfl⟩
    | none =>
      cases hlast : ds.getLast? with
      | some d =>
        rw [sideInfo_last ds it p tot d hd hlast] at h
        cases h
        constructor
        · intro ht
          cases ht
        · intro hf
          exact Or.inr ⟨rfl, rfl⟩
      | none =>
        have herr : sideInfo none ds it p tot = .error .indexError := by
          unfold sideInfo
          rw [hd, hlast]
        rw [herr] at h
        cases h

theorem mem_of_getElem?_some {α : Type} {l : List α} {i : ℕ} {a : α}
    (h : l[i]? = some a) : i < l.length := by
  by_contra hge
  rw [List.getElem?_eq_none (le_of_not_lt hge)] at h
  cases h

/-- Case analysis for one loop iteration: the body either raises a real
Python error, consumes at least one descriptor, or emits a filler pair,
in which case no descriptor was pending at the old position and the new
position is either past the end of the road or exactly at a pending
descriptor's start. -/
theorem sweepBody_cases (cfg : SweepConfig) (st : SweepState) :
    (∃ e, sweepBody cfg st = .error e ∧ e ≠ .fuelExhausted) ∨
    (∃ st', sweepBody cfg st = .ok st' ∧
      (sweepRem st' < sweepRem st ∨
        (sweepRem st' = sweepRem st ∧ ¬pendAt st ∧
          (cfg.tot_length ≤ st'.present_s ∨ pendAt st')))) := by
  cases hr : sideInfo cfg.const_right st.rdefs st.r_it st.present_s
      cfg.tot_length with
  | error e =>
    left
    have he := sideInfo_err _ _ _ _ _ _ hr
    subst he
    refine ⟨.indexError, ?_, by decide⟩
    unfold sweepBody
    rw [hr]
  | ok tr =>
    obtain ⟨addR, nextR, nR⟩ := tr
    cases hl : sideInfo cfg.const_left st.ldefs st.l_it st.present_s
        cfg.tot_length with
    | error e =>
      left
      have he := sideInfo_err _ _ _ _ _ _ hl
      subst he
      refine ⟨.indexError, ?_, by decide⟩
      unfold sweepBody
      rw [hr, hl]
    | ok tl =>
      obtain ⟨addL, nextL, nL⟩ := tl
      have hshr := sideInfo_shape _ _ _ _ _ _ _ _ hr
      have hshl := sideInfo_shape _ _ _ _ _ _ _ _ hl
      have hnotpend : addL = false → addR = false → ¬pendAt st := by
        intro hfl hfr hp
        rcases hp with ⟨d, hd, hds⟩ | ⟨d, hd, hds⟩
        · rcases hshr.2 hfr with ⟨d', hd', hne, _⟩ | ⟨hnone, _⟩
          · rw [hd] at hd'
            cases hd'
            exact hne hds
          · rw [hd] at hnone
            cases hnone
        · rcases hshl.2 hfl with ⟨d', hd', hne, _⟩ | ⟨hnone, _⟩
          · rw [hd] at hd'
            cases hd'
            exact hne hds
          · rw [hd] at hnone
            cases hnone
      cases addL <;> cases addR
      · -- filler branch
        cases hfr : fillerSide cfg.const_right cfg.default_lane_width nR
            st.rdefs st.r_it st.present_s (min nextL nextR) with
        | error e =>
          left
          have he := fillerSide_err _ _ _ _ _ _ _ _ hfr
          subst he
          refine ⟨.indexError, ?_, by decide⟩
          unfold sweepBody
          rw [hr, hl]
          simp only [if_pos (by simp : (false = false ∧ false = false))]
          rw [hfr]
          rfl
        | ok fr =>
          cases hfl : fillerSide cfg.const_left cfg.default_lane_width nL
              st.ldefs st.l_it st.present_s (min nextL nextR) with
          | error e =>
            left
            have he := fillerSide_err _ _ _ _ _ _ _ _ hfl
            subst he
            refine ⟨.indexError, ?_, by decide⟩
            unfold sweepBody
            rw [hr, hl]
            simp only [if_pos (by simp : (false = false ∧ false = false))]
            rw [hfr, hfl]
            rfl
          | ok fl =>
            right
            refine ⟨_, sweepBody_filler cfg st nextR nR nextL nL fr fl
              hr hl hfr hfl, Or.inr ⟨rfl, hnotpend rfl rfl, ?_⟩⟩
            rcases le_total nextL nextR with hmin | hmin
            · rcases hshl.2 rfl with ⟨d, hd, _, hnx⟩ | ⟨_, hnx⟩
              · right
                right
                refine ⟨d, hd, ?_⟩
                show d.s_start = min nextL nextR
                rw [min_eq_left hmin, hnx]
              · left
                show cfg.tot_length ≤ min nextL nextR
                rw [min_eq_left hmin, hnx]
            · rcases hshr.2 rfl with ⟨d, hd, _, hnx⟩ | ⟨_, hnx⟩
              · right
                left
                refine ⟨d, hd, ?_⟩
                show d.s_start = min nextL nextR
                rw [min_eq_right hmin, hnx]
              · left
                show cfg.tot_length ≤ min nextL nextR
                rw [min_eq_right hmin, hnx]
      · -- only right
        obtain ⟨dr, hdr, hdrs⟩ := hshr.1 rfl
        right
        refine ⟨_, sweepBody_onlyRight cfg st dr nextL nL hdr hdrs hl,
          Or.inl ?_⟩
        have hlt := mem_of_getElem?_some hdr
        unfold sweepRem
        simp only [List.length_set]
        omega
      · -- only left
        obtain ⟨dl, hdl, hdls⟩ := hshl.1 rfl
        right
        refine ⟨_, sweepBody_onlyLeft cfg st dl nextR nR hdl hdls hr,
          Or.inl ?_⟩
        have hlt := mem_of_getElem?_some hdl
        unfold sweepRem
        simp only [List.length_set]
        omega
      · -- both
        obtain ⟨dr, hdr, hdrs⟩ := hshr.1 rfl
        obtain ⟨dl, hdl, hdls⟩ := hshl.1 rfl
        right
        refine ⟨_, sweepBody_both cfg st dr dl hdr hdl hdrs hdls,
          Or.inl ?_⟩
        have hltr := mem_of_getElem?_some hdr
        have hltl := mem_of_getElem?_some hdl
        unfold sweepRem
        simp only [List.length_set]
        omega

/-- The fuel bound: from any state, `2 * (pending descriptors) + 2` more
iterations always finish the loop (one less suffices when a descriptor
is pending at the current position or the road is already covered). -/
theorem sweepLoop_no_fuel_exhaust (cfg : SweepConfig) :
    ∀ (fuel : ℕ) (st : SweepState),
      (2 * sweepRem st + 2 ≤ fuel ∨
        (2 * sweepRem st + 1 ≤ fuel ∧
          (cfg.tot_length ≤ st.present_s ∨ pendAt st))) →
      sweepLoop cfg fuel st ≠ .error .fuelExhausted := by
  intro fuel
  induction fuel with
  | zero =>
    intro st h
    rcases h with h | ⟨h, _⟩ <;> omega
  | succ fuel ih =>
    intro st h
    by_cases hlt : st.present_s < cfg.tot_length
    · rw [sweepLoop_step cfg fuel st hlt]
      rcases sweepBody_cases cfg st with ⟨e, he, hne⟩ | ⟨st', hok, hcase⟩
      · rw [he]
        intro hc
        apply hne
        injection hc
      · rw [hok]
        dsimp only
        apply ih st'
        rcases hcase with hdec | ⟨heq, hnp, hpend⟩
        · left
          rcases h with h | ⟨h, _⟩ <;> omega
        · rcases h with h | ⟨h, hp⟩
          · right
            exact ⟨by omega, hpend⟩
          · rcases hp with hp | hp
            · exact absurd hlt (not_lt.mpr hp)
            · exact absurd hp hnp
    · rw [sweepLoop_stop cfg fuel st hlt]
      intro hc
      cases hc

theorem except_bind_noFuel {α β : Type} (x : Except PyErr α)
    (f : α → Except PyErr β) (hx : x ≠ .error .fuelExhausted)
    (hf : ∀ a, f a ≠ .error .fuelExhausted) :
    (x >>= f) ≠ .error .fuelExhausted := by
  cases x with
  | error e => simpa [Bind.bind, Except.bind] using hx
  | ok a => simpa [Bind.bind, Except.bind] using hf a

theorem mapM_noFuel {α β : Type} (f : α → Except PyErr β)
    (hf : ∀ x, f x ≠ .error .fuelExhausted) (l : List α) :
    (l.mapM f) ≠ .error .fuelExhausted := by
  induction l with
  | nil =>
    rw [List.mapM_nil]
    intro h
    cases h
  | cons a as ih =>
    rw [List.mapM_cons]
    apply except_bind_noFuel _ _ (hf a)
    intro b
    apply except_bind_noFuel _ _ ih
    intro bs h
    cases h

theorem widthAt_noFuel (xs : List ℚ) (i : ℕ) :
    widthAt xs i ≠ .error .fuelExhausted := by
  unfold widthAt
  split <;> simp

theorem get_coeffs_noFuel (len_ sw : ℚ) (g : Bool) (ew : ℚ) :
    get_coeffs_for_poly3 len_ sw g ew ≠ .error .fuelExhausted := by
  unfold get_coeffs_for_poly3
  split <;> simp

theorem buildLaneChange_noFuel (d : LaneDef) (i : ℕ) (g : Bool)
    (rm : RoadMarkKind) :
    buildLaneChange d i g rm ≠ .error .fuelExhausted := by
  unfold buildLaneChange
  apply except_bind_noFuel _ _ (widthAt_noFuel _ _)
  intro sw
  apply except_bind_noFuel _ _ (widthAt_noFuel _ _)
  intro ew
  split
  · rename_i e heq
    intro hc
    injection hc with hc
    subst hc
    exact get_coeffs_noFuel _ _ _ _ heq
  · simp

theorem buildLaneTail_noFuel (w : ℚ) (wEnd : Option ℚ) (d : LaneDef)
    (i : ℕ) (rm : RoadMarkKind) :
    buildLaneTail w wEnd d i rm ≠ .error .fuelExhausted := by
  unfold buildLaneTail
  split
  · split
    · rename_i e heq
      intro hc
      injection hc with hc
      subst hc
      exact get_coeffs_noFuel _ _ _ _ heq
    · simp
  · split
    · apply except_bind_noFuel _ _ (widthAt_noFuel _ _)
      intro sw
      apply except_bind_noFuel _ _ (widthAt_noFuel _ _)
      intro ew
      split
      · rename_i e heq
        intro hc
        injection hc with hc
        subst hc
        exact get_coeffs_noFuel _ _ _ _ heq
      · simp
    · simp

theorem buildRightLane_noFuel (w : ℚ) (wEnd : Option ℚ) (d : LaneDef)
    (i : ℕ) : buildRightLane w wEnd d i ≠ .error .fuelExhausted := by
  unfold buildRightLane
  split
  · split
    · simp
    · split
      · exact buildLaneChange_noFuel _ _ _ _
      · exact buildLaneTail_noFuel _ _ _ _ _
  · split
    · split
      · simp
      · split
        · exact buildLaneChange_noFuel _ _ _ _
        · exact buildLaneTail_noFuel _ _ _ _ _
    · exact buildLaneTail_noFuel _ _ _ _ _

theorem buildLeftLane_noFuel (w : ℚ) (wEnd : Option ℚ) (d : LaneDef)
    (i : ℕ) : buildLeftLane w wEnd d i ≠ .error .fuelExhausted := by
  unfold buildLeftLane
  split
  · split
    · simp
    · split
      · exact buildLaneChange_noFuel _ _ _ _
      · exact buildLaneTail_noFuel _ _ _ _ _
  · split
    · split
      · simp
      · split
        · exact buildLaneChange_noFuel _ _ _ _
        · exact buildLaneTail_noFuel _ _ _ _ _
    · exact buildLaneTail_noFuel _ _ _ _ _

theorem buildSection_noFuel (w : ℚ) (wEnd : Option ℚ) (rd ld : LaneDef) :
    buildSection w wEnd rd ld ≠ .error .fuelExhausted := by
  unfold buildSection
  apply except_bind_noFuel _ _
    (mapM_noFuel _ (fun i => buildRightLane_noFuel w wEnd rd i) _)
  intro rls
  apply except_bind_noFuel _ _
    (mapM_noFuel _ (fun i => buildLeftLane_noFuel w wEnd ld i) _)
  intro lls h
  cases h

theorem buildSections_noFuel (rds lds : List LaneDef) (w : ℚ)
    (wEnd : Option ℚ) :
    buildSections rds lds w wEnd ≠ .error .fuelExhausted := by
  unfold buildSections
  apply mapM_noFuel
  intro ls
  split
  · exact buildSection_noFuel _ _ _ _
  · simp

theorem linkPair_noFuel (pc cc : ℕ) (pi ci : ℤ) :
    linkPair pc cc pi ci ≠ .error .fuelExhausted := by
  intro h
  cases linkPair_err_eq _ _ _ _ _ h

theorem collectLinks_noFuel (f : ℕ → Option (Except PyErr (ℕ × ℕ)))
    (hf : ∀ j, f j ≠ some (.error .fuelExhausted)) :
    ∀ js : List ℕ, collectLinks f js ≠ .error .fuelExhausted := by
  intro js
  induction js with
  | nil => simp [collectLinks]
  | cons a as ih =>
    unfold collectLinks
    cases hfa : f a with
    | none => exact ih
    | some r =>
      cases r with
      | error e =>
        intro hc
        injection hc with hc
        subst hc
        exact hf a hfa
      | ok v =>
        cases hc : collectLinks f as with
        | error e =>
          intro hcc
          injection hcc with hcc
          subst hcc
          exact ih hc
        | ok ps => simp

theorem rightBoundaryLinks_noFuel (prev cur : LaneDef) :
    rightBoundaryLinks prev cur ≠ .error .fuelExhausted := by
  unfold rightBoundaryLinks
  split
  · split
    · simp
    · apply collectLinks_noFuel
      intro j
      split
      · intro hc
        exact linkPair_noFuel _ _ _ _ (Option.some.inj hc)
      · split
        · intro hc
          exact linkPair_noFuel _ _ _ _ (Option.some.inj hc)
        · simp
  · split
    · split
      · simp
      · apply collectLinks_noFuel
        intro j
        split
        · intro hc
          exact linkPair_noFuel _ _ _ _ (Option.some.inj hc)
        · split
          · intro hc
            exact linkPair_noFuel _ _ _ _ (Option.some.inj hc)
          · simp
    · apply collectLinks_noFuel
      intro j
      intro hc
      exact linkPair_noFuel _ _ _ _ (Option.some.inj hc)

theorem leftBoundaryLinks_noFuel (prev cur : LaneDef) :
    leftBoundaryLinks prev cur ≠ .error .fuelExhausted := by
  unfold leftBoundaryLinks
  split
  · split
    · simp
    · apply collectLinks_noFuel
      intro j
      split
      · intro hc
        exact linkPair_noFuel _ _ _ _ (Option.some.inj hc)
      · split
        · intro hc
          exact linkPair_noFuel _ _ _ _ (Option.some.inj hc)
        · simp
  · split
    · split
      · simp
      · apply collectLinks_noFuel
        intro j
        split
        · intro hc
          exact linkPair_noFuel _ _ _ _ (Option.some.inj hc)
        · split
          · intro hc
            exact linkPair_noFuel _ _ _ _ (Option.some.inj hc)
          · simp
    · apply collectLinks_noFuel
      intro j
      intro hc
      exact linkPair_noFuel _ _ _ _ (Option.some.inj hc)

theorem buildAllLinks_noFuel (rds lds : List LaneDef) :
    buildAllLinks rds lds ≠ .error .fuelExhausted := by
  unfold buildAllLinks
  apply except_bind_noFuel
  · apply mapM_noFuel
    intro i
    split
    · apply except_bind_noFuel _ _ (rightBoundaryLinks_noFuel _ _)
      intro ps h
      cases h
    · simp
  · intro rl
    apply except_bind_noFuel
    · apply mapM_noFuel
      intro i
      split
      · apply except_bind_noFuel _ _ (leftBoundaryLinks_noFuel _ _)
        intro ps h
        cases h
      · simp
    · intro ll h
      cases h

/-- `_create_lane_lists` unfolded to the sweep loop. -/
theorem create_lane_lists_eq (right left : LaneInput) (tot w : ℚ) :
    create_lane_lists right left tot w =
      match sweepLoop ⟨right.toConst, left.toConst, tot, w⟩
          (sweepFuel right left)
          ⟨0, 0, 0, right.toList, left.toList, [], []⟩ with
      | .error e => .error e
      | .ok st => .ok (st.ret_right.map LaneDef.adjust_lane_widths,
          st.ret_left.map LaneDef.adjust_lane_widths) := rfl

theorem create_lane_lists_noFuel (right left : LaneInput) (tot w : ℚ) :
    create_lane_lists right left tot w ≠ .error .fuelExhausted := by
  have hloop := sweepLoop_no_fuel_exhaust
    ⟨right.toConst, left.toConst, tot, w⟩ (sweepFuel right left)
    ⟨0, 0, 0, right.toList, left.toList, [], []⟩
    (Or.inl (by unfold sweepFuel sweepRem; simp))
  rw [create_lane_lists_eq]
  cases hs : sweepLoop ⟨right.toConst, left.toConst, tot, w⟩
      (sweepFuel right left)
      ⟨0, 0, 0, right.toList, left.toList, [], []⟩ with
  | error e =>
    intro hc
    injection hc with hc
    subst hc
    exact hloop hs
  | ok st => simp

/-- C7: for every input the top-level build terminates — in the fuel
model, the fuel `2·(number of user descriptors) + 2` given to the sweep
loop of `_create_lane_lists` is never exhausted (each loop iteration
either consumes a descriptor or jumps straight to the next descriptor
start or the end of the road), and every other stage of
`create_lanes_merge_split` is structural recursion over finite lists. -/
theorem build_terminates (right left : LaneInput)
    (road_length lane_width : ℚ) (lane_width_end : Option ℚ)
    (h : 0 < road_length) :
    create_lanes_merge_split right left road_length lane_width
      lane_width_end ≠ .error .fuelExhausted := by
  unfold create_lanes_merge_split
  apply except_bind_noFuel _ _ (create_lane_lists_noFuel _ _ _ _)
  intro p
  apply except_bind_noFuel
  · cases p
    exact buildSections_noFuel _ _ _ _
  · intro secs
    apply except_bind_noFuel
    · cases p
      exact buildAllLinks_noFuel _ _
    · intro links hc
      cases hc

/-- Witness for `build_terminates` at a concrete input. -/
theorem build_terminates_witness :
    create_lanes_merge_split (.consts 2) (.consts 1) 10 3 none ≠
      .error .fuelExhausted :=
  build_terminates (.consts 2) (.consts 1) 10 3 none (by decide)

/-! ## Claims C1 and C2: the sweep invariant -/

theorem elem_of_getElem? {α : Type} {l : List α} {i : ℕ} {a : α}
    (h : l[i]? = some a) : a ∈ l := by
  have hi := mem_of_getElem?_some h
  rw [List.getElem?_eq_getElem hi] at h
  cases h
  exact List.getElem_mem hi

theorem widthsExact_emptyOrExact (d : LaneDef) (h : widthsExact d) :
    emptyOrExact d := ⟨Or.inr h.1, Or.inr h.2⟩

theorem set_getElem?_same {α : Type} (l : List α) (k : ℕ) (v : α)
    (h : l[k]? = some v) : l.set k v = l := by
  apply List.ext_getElem?
  intro i
  rw [List.getElem?_set]
  split
  · rename_i hik
    subst hik
    rw [if_pos (mem_of_getElem?_some h), h]
  · rfl

theorem map_bnds_set_check (w : ℚ) (l : List LaneDef) (k : ℕ)
    (d : LaneDef) (hd : l[k]? = some d) :
    (l.set k (checkLaneWidths w d)).map bnds = l.map bnds := by
  rw [List.map_set, check_bnds]
  apply set_getElem?_same
  rw [List.getElem?_map, hd]
  rfl

theorem sideOk_of_map_bnds_eq (tot : ℚ) (l l' : List LaneDef)
    (h : l.map bnds = l'.map bnds) (hok : sideOk tot l') :
    sideOk tot l := by
  constructor
  · intro d hd
    have hm : bnds d ∈ l'.map bnds := by
      rw [← h]
      exact List.mem_map_of_mem bnds hd
    obtain ⟨d', hd', hbe⟩ := List.mem_map.mp hm
    have h1 : d'.s_start = d.s_start := congrArg Prod.fst hbe
    have h2 : d'.s_end = d.s_end := congrArg Prod.snd hbe
    rw [← h1, ← h2]
    exact hok.1 d' hd'
  · have hc' : List.Chain' (fun p q : ℚ × ℚ => p.2 ≤ q.1)
        (l'.map bnds) := (List.chain'_map bnds).mpr hok.2
    rw [← h] at hc'
    exact (List.chain'_map bnds).mp hc'

theorem crossOk_of_map_bnds_eq (r r' l l' : List LaneDef)
    (hr : r.map bnds = r'.map bnds) (hl : l.map bnds = l'.map bnds)
    (hok : crossOk r' l') : crossOk r l := by
  intro dr hdr dl hdl
  have hmr : bnds dr ∈ r'.map bnds := by
    rw [← hr]
    exact List.mem_map_of_mem bnds hdr
  have hml : bnds dl ∈ l'.map bnds := by
    rw [← hl]
    exact List.mem_map_of_mem bnds hdl
  obtain ⟨dr', hdr', hber⟩ := List.mem_map.mp hmr
  obtain ⟨dl', hdl', hbel⟩ := List.mem_map.mp hml
  have r1 : dr'.s_start = dr.s_start := congrArg Prod.fst hber
  have r2 : dr'.s_end = dr.s_end := congrArg Prod.snd hber
  have l1 : dl'.s_start = dl.s_start := congrArg Prod.fst hbel
  have l2 : dl'.s_end = dl.s_end := congrArg Prod.snd hbel
  have := hok dr' hdr' dl' hdl'
  rw [r1, r2, l1, l2] at this
  exact this

theorem sideOk_consec (tot : ℚ) (l : List LaneDef) (k : ℕ)
    (d d' : LaneDef) (h : sideOk tot l) (hd : l[k]? = some d)
    (hd' : l[k + 1]? = some d') : d.s_end ≤ d'.s_start := by
  have hk := mem_of_getElem?_some hd
  have hk' := mem_of_getElem?_some hd'
  have hc := List.chain'_iff_get.mp h.2 k (by omega)
  rw [List.getElem?_eq_getElem hk] at hd
  rw [List.getElem?_eq_getElem hk'] at hd'
  cases hd
  cases hd'
  exact hc

theorem tiles_snoc (a : ℚ) (l : List LaneDef) (d : LaneDef) :
    ∀ b : ℚ, tiles a b l → d.s_start = b → b < d.s_end →
    tiles a d.s_end (l ++ [d]) := by
  induction l generalizing a with
  | nil =>
    intro b h hd1 hd2
    unfold tiles at h
    subst h
    exact ⟨hd1, hd2, rfl⟩
  | cons x xs ih =>
    intro b h hd1 hd2
    obtain ⟨h1, h2, h3⟩ := h
    exact ⟨h1, h2, ih _ b h3 hd1 hd2⟩

/-- A same-count filler constructed with identical start and end width
lists of length `n` is exactly width-populated. -/
theorem filler_exact (p se : ℚ) (n : ℕ) (ws : List ℚ)
    (hw : ws.length = n) :
    widthsExact (LaneDef.init p se n n none ws ws) := by
  constructor
  · exact hw
  · show (if ws = [] then ws else ws).length = n
    split <;> exact hw

theorem fillerSide_const (cc : ℕ) (w : ℚ) (n : ℕ) (ds : List LaneDef)
    (it : ℕ) (p se : ℚ) :
    fillerSide (some cc) w n ds it p se =
      .ok (LaneDef.init p se n n none (List.replicate n w)
        (List.replicate n w)) := rfl

/-- Evaluation of the filler construction when the side still has a
pending descriptor: its start widths are carried forward when present.
The produced filler is width-exact when the pending descriptor obeys
the width constraint and `n` is its start count. -/
theorem fillerSide_none_pending (w : ℚ) (n : ℕ) (ds : List LaneDef)
    (it : ℕ) (p se : ℚ) (d : LaneDef) (hd : ds[it]? = some d)
    (hn : n = d.n_lanes_start) (hW : emptyOrExact d) :
    ∃ f, fillerSide none w n ds it p se = .ok f ∧
      f.s_start = p ∧ f.s_end = se ∧ f.n_lanes_start = n ∧
      f.n_lanes_end = n ∧ f.sub_lane = none ∧ widthsExact f := by
  have hit : it ≠ ds.length := by
    have := mem_of_getElem?_some hd
    omega
  unfold fillerSide fillerWidths
  rw [if_neg hit, hd]
  dsimp only
  by_cases hsw : d.lane_start_widths = []
  · rw [if_neg (by simpa using hsw)]
    exact ⟨_, rfl, rfl, rfl, rfl, rfl, rfl,
      filler_exact p se n _ (by simp)⟩
  · rw [if_pos (by simpa using hsw)]
    refine ⟨_, rfl, rfl, rfl, rfl, rfl, rfl,
      filler_exact p se n _ ?_⟩
    rcases hW.1 with h | h
    · exact absurd h hsw
    · rw [h, hn]

/-- Evaluation of the filler construction when the side's descriptor
list is exhausted: the last descriptor's end widths are carried forward
when present. -/
theorem fillerSide_none_exhausted (w : ℚ) (n : ℕ) (ds : List LaneDef)
    (p se : ℚ) (dlast : LaneDef) (hlast : ds.getLast? = some dlast)
    (hn : n = dlast.n_lanes_end) (hW : emptyOrExact dlast) :
    ∃ f, fillerSide none w n ds ds.length p se = .ok f ∧
      f.s_start = p ∧ f.s_end = se ∧ f.n_lanes_start = n ∧
      f.n_lanes_end = n ∧ f.sub_lane = none ∧ widthsExact f := by
  have hne : ds ≠ [] := by
    intro hc
    rw [hc] at hlast
    cases hlast
  have hlen : 1 ≤ ds.length := by
    cases ds with
    | nil => exact absurd rfl hne
    | cons a as => simp
  have hpy : pyIdx ds ((ds.length : ℤ) - 1) = .ok dlast := by
    unfold pyIdx
    rw [if_pos (by omega)]
    have ht : ((ds.length : ℤ) - 1).toNat = ds.length - 1 := by omega
    rw [ht, ← List.getLast?_eq_getElem?, hlast]
  unfold fillerSide fillerWidths
  rw [if_pos rfl, hpy]
  dsimp only
  by_cases hew : dlast.lane_end_widths = []
  · rw [if_neg (by simpa using hew)]
    exact ⟨_, rfl, rfl, rfl, rfl, rfl, rfl,
      filler_exact p se n _ (by simp)⟩
  · rw [if_pos (by simpa using hew)]
    refine ⟨_, rfl, rfl, rfl, rfl, rfl, rfl,
      filler_exact p se n _ ?_⟩
    rcases hW.2 with h | h
    · exact absurd h hew
    · rw [h, hn]

/-- The invariant maintained by the sweep loop on valid inputs. -/
structure SweepInv (cfg : SweepConfig) (st : SweepState) : Prop where
  rOk : sideOk cfg.tot_length st.rdefs
  lOk : sideOk cfg.tot_length st.ldefs
  rNe : cfg.const_right = none → st.rdefs ≠ []
  lNe : cfg.const_left = none → st.ldefs ≠ []
  rW : ∀ d ∈ st.rdefs, emptyOrExact d
  lW : ∀ d ∈ st.ldefs, emptyOrExact d
  cross : crossOk st.rdefs st.ldefs
  rItLe : st.r_it ≤ st.rdefs.length
  lItLe : st.l_it ≤ st.ldefs.length
  rPend : ∀ d, st.rdefs[st.r_it]? = some d → st.present_s ≤ d.s_start
  lPend : ∀ d, st.ldefs[st.l_it]? = some d → st.present_s ≤ d.s_start
  psLe : st.present_s ≤ cfg.tot_length
  tilesR : tiles 0 st.present_s st.ret_right
  tilesL : tiles 0 st.present_s st.ret_left
  bndEq : st.ret_right.map bnds = st.ret_left.map bnds
  retRW : ∀ d ∈ st.ret_right, widthsExact d
  retLW : ∀ d ∈ st.ret_left, widthsExact d

theorem sweepInv_step_both (cfg : SweepConfig) (st : SweepState)
    (inv : SweepInv cfg st) (dr dl : LaneDef)
    (hrd : st.rdefs[st.r_it]? = some dr)
    (hld : st.ldefs[st.l_it]? = some dl)
    (hrs : dr.s_start = st.present_s)
    (hls : dl.s_start = st.present_s) :
    ∃ st', sweepBody cfg st = .ok st' ∧ SweepInv cfg st' ∧
      sweepRem st' < sweepRem st := by
  have hdrm : dr ∈ st.rdefs := elem_of_getElem? hrd
  have hdlm : dl ∈ st.ldefs := elem_of_getElem? hld
  obtain ⟨hdr0, hdrlt, hdrle⟩ := inv.rOk.1 dr hdrm
  obtain ⟨hdl0, hdllt, hdlle⟩ := inv.lOk.1 dl hdlm
  have hend : dr.s_end = dl.s_end := by
    rcases inv.cross dr hdrm dl hdlm with ⟨h1, h2⟩ | h | h
    · exact h2
    · exfalso
      linarith [hrs, hls]
    · exfalso
      linarith [hrs, hls]
  have hmapr := map_bnds_set_check cfg.default_lane_width st.rdefs
    st.r_it dr hrd
  have hmapl := map_bnds_set_check cfg.default_lane_width st.ldefs
    st.l_it dl hld
  refine ⟨_, sweepBody_both cfg st dr dl hrd hld hrs hls, ?_, ?_⟩
  · constructor
    · exact sideOk_of_map_bnds_eq _ _ _ hmapr inv.rOk
    · exact sideOk_of_map_bnds_eq _ _ _ hmapl inv.lOk
    · intro hc hnil
      apply inv.rNe hc
      have := congrArg List.length hnil
      simp only [List.length_set] at this
      exact List.length_eq_zero.mp this
    · intro hc hnil
      apply inv.lNe hc
      have := congrArg List.length hnil
      simp only [List.length_set] at this
      exact List.length_eq_zero.mp this
    · intro d hd
      rcases List.mem_or_eq_of_mem_set hd with h | h
      · exact inv.rW d h
      · rw [h]
        exact widthsExact_emptyOrExact _
          (check_exact _ dr (inv.rW dr hdrm))
    · intro d hd
      rcases List.mem_or_eq_of_mem_set hd with h | h
      · exact inv.lW d h
      · rw [h]
        exact widthsExact_emptyOrExact _
          (check_exact _ dl (inv.lW dl hdlm))
    · exact crossOk_of_map_bnds_eq _ _ _ _ hmapr hmapl inv.cross
    · show st.r_it + 1 ≤ (st.rdefs.set _ _).length
      rw [List.length_set]
      exact mem_of_getElem?_some hrd
    · show st.l_it + 1 ≤ (st.ldefs.set _ _).length
      rw [List.length_set]
      exact mem_of_getElem?_some hld
    · intro d hd
      dsimp only at hd
      rw [List.getElem?_set, if_neg (by omega)] at hd
      have := sideOk_consec cfg.tot_length st.rdefs st.r_it dr d
        inv.rOk hrd hd
      show dl.s_end ≤ d.s_start
      rw [← hend]
      exact this
    · intro d hd
      dsimp only at hd
      rw [List.getElem?_set, if_neg (by omega)] at hd
      exact sideOk_consec cfg.tot_length st.ldefs st.l_it dl d
        inv.lOk hld hd
    · exact hdlle
    · show tiles 0 dl.s_end _
      rw [← hend, ← check_s_end cfg.default_lane_width dr]
      apply tiles_snoc 0 st.ret_right _ st.present_s inv.tilesR
      · rw [check_s_start, hrs]
      · rw [check_s_end, ← hrs]
        exact hdrlt
    · show tiles 0 dl.s_end _
      rw [← check_s_end cfg.default_lane_width dl]
      apply tiles_snoc 0 st.ret_left _ st.present_s inv.tilesL
      · rw [check_s_start, hls]
      · rw [check_s_end, ← hls]
        exact hdllt
    · show (st.ret_right ++ _).map bnds = (st.ret_left ++ _).map bnds
      rw [List.map_append, List.map_append, inv.bndEq]
      have : bnds (checkLaneWidths cfg.default_lane_width dr) =
          bnds (checkLaneWidths cfg.default_lane_width dl) := by
        rw [check_bnds, check_bnds]
        unfold bnds
        rw [hrs, hls, hend]
      rw [List.map_singleton, List.map_singleton, this]
    · intro d hd
      rcases List.mem_append.mp hd with h | h
      · exact inv.retRW d h
      · rw [List.mem_singleton.mp h]
        exact check_exact _ dr (inv.rW dr hdrm)
    · intro d hd
      rcases List.mem_append.mp hd with h | h
      · exact inv.retLW d h
      · rw [List.mem_singleton.mp h]
        exact check_exact _ dl (inv.lW dl hdlm)
  · have h1 := mem_of_getElem?_some hrd
    have h2 := mem_of_getElem?_some hld
    unfold sweepRem
    simp only [List.length_set]
    omega

theorem sideInfo_eval_noadd (c : Option ℕ) (ds : List LaneDef) (it : ℕ)
    (p tot : ℚ) (hne : c = none → ds ≠ []) (hitle : it ≤ ds.length)
    (hcase : (∃ d, ds[it]? = some d ∧ d.s_start ≠ p) ∨ ds[it]? = none) :
    ∃ nx n, sideInfo c ds it p tot = .ok (false, nx, n) ∧
      ((∃ d, ds[it]? = some d ∧ d.s_start ≠ p ∧ nx = d.s_start ∧
          n = d.n_lanes_start) ∨
        (it = ds.length ∧ nx = tot ∧ (c = none →
          ∃ dlast, ds.getLast? = some dlast ∧ n = dlast.n_lanes_end))) := by
  rcases hcase with ⟨d, hd, hnep⟩ | hnone
  · exact ⟨d.s_start, d.n_lanes_start,
      sideInfo_pending c ds it p tot d hd hnep,
      Or.inl ⟨d, hd, hnep, rfl, rfl⟩⟩
  · have hit : it = ds.length := by
      have := List.getElem?_eq_none_iff.mp hnone
      omega
    cases c with
    | some cc =>
      exact ⟨tot, cc, sideInfo_const cc ds it p tot hnone,
        Or.inr ⟨hit, rfl, fun hc => by cases hc⟩⟩
    | none =>
      cases hlast : ds.getLast? with
      | some dlast =>
        exact ⟨tot, dlast.n_lanes_end,
          sideInfo_last ds it p tot dlast hnone hlast,
          Or.inr ⟨hit, rfl, fun _ => ⟨dlast, rfl, rfl⟩⟩⟩
      | none =>
        exact absurd (List.getLast?_eq_none_iff.mp hlast) (hne rfl)

theorem fillerSide_eval (c : Option ℕ) (w : ℚ) (n : ℕ)
    (ds : List LaneDef) (it : ℕ) (p se : ℚ)
    (hW : ∀ d ∈ ds, emptyOrExact d)
    (hcase : (∃ d, ds[it]? = some d ∧ n = d.n_lanes_start) ∨
      (it = ds.length ∧ (c = none →
        ∃ dlast, ds.getLast? = some dlast ∧ n = dlast.n_lanes_end))) :
    ∃ f, fillerSide c w n ds it p se = .ok f ∧
      f.s_start = p ∧ f.s_end = se ∧ f.n_lanes_start = n ∧
      f.n_lanes_end = n ∧ f.sub_lane = none ∧ widthsExact f := by
  cases c with
  | some cc =>
    refine ⟨_, fillerSide_const cc w n ds it p se, rfl, rfl, rfl, rfl,
      rfl, filler_exact p se n _ (by simp)⟩
  | none =>
    rcases hcase with ⟨d, hd, hn⟩ | ⟨hit, hlastf⟩
    · obtain ⟨f, hf, h1, h2, h3, h4, h5, h6⟩ := fillerSide_none_pending
        w n ds it p se d hd hn (hW d (elem_of_getElem? hd))
      exact ⟨f, hf, h1, h2, h3, h4, h5, h6⟩
    · obtain ⟨dlast, hlast, hn⟩ := hlastf rfl
      subst hit
      obtain ⟨f, hf, h1, h2, h3, h4, h5, h6⟩ := fillerSide_none_exhausted
        w n ds p se dlast hlast hn
        (hW dlast (List.mem_of_getLast?_eq_some hlast))
      exact ⟨f, hf, h1, h2, h3, h4, h5, h6⟩

theorem sweepInv_step_onlyRight (cfg : SweepConfig) (st : SweepState)
    (inv : SweepInv cfg st) (dr : LaneDef) (nextl : ℚ) (nl : ℕ)
    (hrd : st.rdefs[st.r_it]? = some dr)
    (hrs : dr.s_start = st.present_s)
    (hl : sideInfo cfg.const_left st.ldefs st.l_it st.present_s
      cfg.tot_length = .ok (false, nextl, nl))
    (hnol : ∀ dl', st.ldefs[st.l_it]? = some dl' →
      dl'.s_start ≠ st.present_s) :
    ∃ st', sweepBody cfg st = .ok st' ∧ SweepInv cfg st' ∧
      sweepRem st' < sweepRem st := by
  have hdrm : dr ∈ st.rdefs := elem_of_getElem? hrd
  obtain ⟨hdr0, hdrlt, hdrle⟩ := inv.rOk.1 dr hdrm
  have hmapr := map_bnds_set_check cfg.default_lane_width st.rdefs
    st.r_it dr hrd
  have hlpend : ∀ d, st.ldefs[st.l_it]? = some d →
      dr.s_end ≤ d.s_start := by
    intro d hd
    have hdm : d ∈ st.ldefs := elem_of_getElem? hd
    obtain ⟨hd0, hdlt, hdle⟩ := inv.lOk.1 d hdm
    have hge := inv.lPend d hd
    have hne := hnol d hd
    rcases inv.cross dr hdrm d hdm with ⟨h1, h2⟩ | h | h
    · exfalso
      apply hne
      rw [← h1, hrs]
    · exact h
    · exfalso
      have : d.s_start < d.s_end := hdlt
      have : dr.s_start = st.present_s := hrs
      linarith
  refine ⟨_, sweepBody_onlyRight cfg st dr nextl nl hrd hrs hl, ?_, ?_⟩
  · constructor
    · exact sideOk_of_map_bnds_eq _ _ _ hmapr inv.rOk
    · exact inv.lOk
    · intro hc hnil
      apply inv.rNe hc
      have := congrArg List.length hnil
      simp only [List.length_set] at this
      exact List.length_eq_zero.mp this
    · exact inv.lNe
    · intro d hd
      rcases List.mem_or_eq_of_mem_set hd with h | h
      · exact inv.rW d h
      · rw [h]
        exact widthsExact_emptyOrExact _
          (check_exact _ dr (inv.rW dr hdrm))
    · exact inv.lW
    · exact crossOk_of_map_bnds_eq _ _ _ _ hmapr rfl inv.cross
    · show st.r_it + 1 ≤ (st.rdefs.set _ _).length
      rw [List.length_set]
      exact mem_of_getElem?_some hrd
    · exact inv.lItLe
    · intro d hd
      dsimp only at hd
      rw [List.getElem?_set, if_neg (by omega)] at hd
      exact sideOk_consec cfg.tot_length st.rdefs st.r_it dr d
        inv.rOk hrd hd
    · intro d hd
      exact hlpend d hd
    · exact hdrle
    · show tiles 0 dr.s_end _
      rw [← check_s_end cfg.default_lane_width dr]
      apply tiles_snoc 0 st.ret_right _ st.present_s inv.tilesR
      · rw [check_s_start, hrs]
      · rw [check_s_end, ← hrs]
        exact hdrlt
    · show tiles 0 dr.s_end _
      have hfe : (LaneDef.init st.present_s dr.s_end nl nl none
          (List.replicate nl cfg.default_lane_width)
          (List.replicate nl cfg.default_lane_width)).s_end = dr.s_end := rfl
      rw [← hfe]
      apply tiles_snoc 0 st.ret_left _ st.present_s inv.tilesL
      · rfl
      · show st.present_s < dr.s_end
        rw [← hrs]
        exact hdrlt
    · show (st.ret_right ++ _).map bnds = (st.ret_left ++ _).map bnds
      rw [List.map_append, List.map_append, inv.bndEq]
      have : bnds (checkLaneWidths cfg.default_lane_width dr) =
          bnds (LaneDef.init st.present_s dr.s_end nl nl none
            (List.replicate nl cfg.default_lane_width)
            (List.replicate nl cfg.default_lane_width)) := by
        rw [check_bnds, init_bnds]
        unfold bnds
        rw [hrs]
      rw [List.map_singleton, List.map_singleton, this]
    · intro d hd
      rcases List.mem_append.mp hd with h | h
      · exact inv.retRW d h
      · rw [List.mem_singleton.mp h]
        exact check_exact _ dr (inv.rW dr hdrm)
    · intro d hd
      rcases List.mem_append.mp hd with h | h
      · exact inv.retLW d h
      · rw [List.mem_singleton.mp h]
        exact filler_exact _ _ _ _ (by simp)
  · have h1 := mem_of_getElem?_some hrd
    unfold sweepRem
    simp only [List.length_set]
    omega

theorem sweepInv_step_onlyLeft (cfg : SweepConfig) (st : SweepState)
    (inv : SweepInv cfg st) (dl : LaneDef) (nextr : ℚ) (nr : ℕ)
    (hld : st.ldefs[st.l_it]? = some dl)
    (hls : dl.s_start = st.present_s)
    (hr : sideInfo cfg.const_right st.rdefs st.r_it st.present_s
      cfg.tot_length = .ok (false, nextr, nr))
    (hnor : ∀ dr', st.rdefs[st.r_it]? = some dr' →
      dr'.s_start ≠ st.present_s) :
    ∃ st', sweepBody cfg st = .ok st' ∧ SweepInv cfg st' ∧
      sweepRem st' < sweepRem st := by
  have hdlm : dl ∈ st.ldefs := elem_of_getElem? hld
  obtain ⟨hdl0, hdllt, hdlle⟩ := inv.lOk.1 dl hdlm
  have hmapl := map_bnds_set_check cfg.default_lane_width st.ldefs
    st.l_it dl hld
  have hrpend : ∀ d, st.rdefs[st.r_it]? = some d →
      dl.s_end ≤ d.s_start := by
    intro d hd
    have hdm : d ∈ st.rdefs := elem_of_getElem? hd
    obtain ⟨hd0, hdlt, hdle⟩ := inv.rOk.1 d hdm
    have hge := inv.rPend d hd
    have hne := hnor d hd
    rcases inv.cross d hdm dl hdlm with ⟨h1, h2⟩ | h | h
    · exfalso
      apply hne
      rw [h1, hls]
    · exfalso
      have : d.s_start < d.s_end := hdlt
      have : dl.s_start = st.present_s := hls
      linarith
    · exact h
  refine ⟨_, sweepBody_onlyLeft cfg st dl nextr nr hld hls hr, ?_, ?_⟩
  · constructor
    · exact inv.rOk
    · exact sideOk_of_map_bnds_eq _ _ _ hmapl inv.lOk
    · exact inv.rNe
    · intro hc hnil
      apply inv.lNe hc
      have := congrArg List.length hnil
      simp only [List.length_set] at this
      exact List.length_eq_zero.mp this
    · exact inv.rW
    · intro d hd
      rcases List.mem_or_eq_of_mem_set hd with h | h
      · exact inv.lW d h
      · rw [h]
        exact widthsExact_emptyOrExact _
          (check_exact _ dl (inv.lW dl hdlm))
    · exact crossOk_of_map_bnds_eq _ _ _ _ rfl hmapl inv.cross
    · exact inv.rItLe
    · show st.l_it + 1 ≤ (st.ldefs.set _ _).length
      rw [List.length_set]
      exact mem_of_getElem?_some hld
    · intro d hd
      exact hrpend d hd
    · intro d hd
      dsimp only at hd
      rw [List.getElem?_set, if_neg (by omega)] at hd
      exact sideOk_consec cfg.tot_length st.ldefs st.l_it dl d
        inv.lOk hld hd
    · exact hdlle
    · show tiles 0 dl.s_end _
      have hfe : (LaneDef.init st.present_s dl.s_end nr nr none
          (List.replicate nr cfg.default_lane_width)
          (List.replicate nr cfg.default_lane_width)).s_end = dl.s_end := rfl
      rw [← hfe]
      apply tiles_snoc 0 st.ret_right _ st.present_s inv.tilesR
      · rfl
      · show st.present_s < dl.s_end
        rw [← hls]
        exact hdllt
    · show tiles 0 dl.s_end _
      rw [← check_s_end cfg.default_lane_width dl]
      apply tiles_snoc 0 st.ret_left _ st.present_s inv.tilesL
      · rw [check_s_start, hls]
      · rw [check_s_end, ← hls]
        exact hdllt
    · show (st.ret_right ++ _).map bnds = (st.ret_left ++ _).map bnds
      rw [List.map_append, List.map_append, inv.bndEq]
      have : bnds (LaneDef.init st.present_s dl.s_end nr nr none
            (List.replicate nr cfg.default_lane_width)
            (List.replicate nr cfg.default_lane_width)) =
          bnds (checkLaneWidths cfg.default_lane_width dl) := by
        rw [check_bnds, init_bnds]
        unfold bnds
        rw [hls]
      rw [List.map_singleton, List.map_singleton, this]
    · intro d hd
      rcases List.mem_append.mp hd with h | h
      · exact inv.retRW d h
      · rw [List.mem_singleton.mp h]
        exact filler_exact _ _ _ _ (by simp)
    · intro d hd
      rcases List.mem_append.mp hd with h | h
      · exact inv.retLW d h
      · rw [List.mem_singleton.mp h]
        exact check_exact _ dl (inv.lW dl hdlm)
  · have h1 := mem_of_getElem?_some hld
    unfold sweepRem
    simp only [List.length_set]
    omega

theorem sweepInv_step_filler (cfg : SweepConfig) (st : SweepState)
    (inv : SweepInv cfg st) (hlt : st.present_s < cfg.tot_length)
    (nextr : ℚ) (nr : ℕ) (nextl : ℚ) (nl : ℕ)
    (hr : sideInfo cfg.const_right st.rdefs st.r_it st.present_s
      cfg.tot_length = .ok (false, nextr, nr))
    (hl : sideInfo cfg.const_left st.ldefs st.l_it st.present_s
      cfg.tot_length = .ok (false, nextl, nl))
    (hrcase : (∃ d, st.rdefs[st.r_it]? = some d ∧
        d.s_start ≠ st.present_s ∧ nextr = d.s_start ∧
        nr = d.n_lanes_start) ∨
      (st.r_it = st.rdefs.length ∧ nextr = cfg.tot_length ∧
        (cfg.const_right = none → ∃ dlast,
          st.rdefs.getLast? = some dlast ∧ nr = dlast.n_lanes_end)))
    (hlcase : (∃ d, st.ldefs[st.l_it]? = some d ∧
        d.s_start ≠ st.present_s ∧ nextl = d.s_start ∧
        nl = d.n_lanes_start) ∨
      (st.l_it = st.ldefs.length ∧ nextl = cfg.tot_length ∧
        (cfg.const_left = none → ∃ dlast,
          st.ldefs.getLast? = some dlast ∧ nl = dlast.n_lanes_end))) :
    ∃ st', sweepBody cfg st = .ok st' ∧ SweepInv cfg st' ∧
      (sweepRem st' = sweepRem st ∧ ¬pendAt st ∧
        (cfg.tot_length ≤ st'.present_s ∨ pendAt st')) := by
  have hnr1 : st.present_s < nextr := by
    rcases hrcase with ⟨d, hd, hne, hnx, _⟩ | ⟨_, hnx, _⟩
    · have := inv.rPend d hd
      rw [hnx]
      rcases lt_or_eq_of_le this with h | h
      · exact h
      · exact absurd h.symm hne
    · rw [hnx]
      exact hlt
  have hnr2 : nextr ≤ cfg.tot_length := by
    rcases hrcase with ⟨d, hd, _, hnx, _⟩ | ⟨_, hnx, _⟩
    · obtain ⟨_, h2, h3⟩ := inv.rOk.1 d (elem_of_getElem? hd)
      rw [hnx]
      linarith
    · rw [hnx]
  have hnl1 : st.present_s < nextl := by
    rcases hlcase with ⟨d, hd, hne, hnx, _⟩ | ⟨_, hnx, _⟩
    · have := inv.lPend d hd
      rw [hnx]
      rcases lt_or_eq_of_le this with h | h
      · exact h
      · exact absurd h.symm hne
    · rw [hnx]
      exact hlt
  have hnl2 : nextl ≤ cfg.tot_length := by
    rcases hlcase with ⟨d, hd, _, hnx, _⟩ | ⟨_, hnx, _⟩
    · obtain ⟨_, h2, h3⟩ := inv.lOk.1 d (elem_of_getElem? hd)
      rw [hnx]
      linarith
    · rw [hnx]
  obtain ⟨fr, hfr, frs, fre, frns, frne, frsub, frW⟩ :=
    fillerSide_eval cfg.const_right cfg.default_lane_width nr st.rdefs
      st.r_it st.present_s (min nextl nextr) inv.rW
      (by
        rcases hrcase with ⟨d, hd, _, _, hn⟩ | ⟨hit, _, hlastf⟩
        · exact Or.inl ⟨d, hd, hn⟩
        · exact Or.inr ⟨hit, hlastf⟩)
  obtain ⟨fl, hfl, fls, fle, flns, flne, flsub, flW⟩ :=
    fillerSide_eval cfg.const_left cfg.default_lane_width nl st.ldefs
      st.l_it st.present_s (min nextl nextr) inv.lW
      (by
        rcases hlcase with ⟨d, hd, _, _, hn⟩ | ⟨hit, _, hlastf⟩
        · exact Or.inl ⟨d, hd, hn⟩
        · exact Or.inr ⟨hit, hlastf⟩)
  have hpmin : st.present_s < min nextl nextr := lt_min hnl1 hnr1
  refine ⟨_, sweepBody_filler cfg st nextr nr nextl nl fr fl hr hl
    hfr hfl, ?_, rfl, ?_, ?_⟩
  · constructor
    · exact inv.rOk
    · exact inv.lOk
    · exact inv.rNe
    · exact inv.lNe
    · exact inv.rW
    · exact inv.lW
    · exact inv.cross
    · exact inv.rItLe
    · exact inv.lItLe
    · intro d hd
      have := inv.rPend d hd
      show min nextl nextr ≤ d.s_start
      rcases hrcase with ⟨d', hd', _, hnx, _⟩ | ⟨hit, _, _⟩
      · rw [hd] at hd'
        cases hd'
        rw [← hnx]
        exact min_le_right _ _
      · rw [List.getElem?_eq_none (le_of_eq hit.symm)] at hd
        cases hd
    · intro d hd
      have := inv.lPend d hd
      show min nextl nextr ≤ d.s_start
      rcases hlcase with ⟨d', hd', _, hnx, _⟩ | ⟨hit, _, _⟩
      · rw [hd] at hd'
        cases hd'
        rw [← hnx]
        exact min_le_left _ _
      · rw [List.getElem?_eq_none (le_of_eq hit.symm)] at hd
        cases hd
    · exact le_trans (min_le_right _ _) hnr2
    · show tiles 0 (min nextl nextr) _
      rw [← fre]
      apply tiles_snoc 0 st.ret_right fr st.present_s inv.tilesR frs
      rw [fre]
      exact hpmin
    · show tiles 0 (min nextl nextr) _
      rw [← fle]
      apply tiles_snoc 0 st.ret_left fl st.present_s inv.tilesL fls
      rw [fle]
      exact hpmin
    · show (st.ret_right ++ _).map bnds = (st.ret_left ++ _).map bnds
      rw [List.map_append, List.map_append, inv.bndEq]
      have : bnds fr = bnds fl := by
        unfold bnds
        rw [frs, fre, fls, fle]
      rw [List.map_singleton, List.map_singleton, this]
    · intro d hd
      rcases List.mem_append.mp hd with h | h
      · exact inv.retRW d h
      · rw [List.mem_singleton.mp h]
        exact frW
    · intro d hd
      rcases List.mem_append.mp hd with h | h
      · exact inv.retLW d h
      · rw [List.mem_singleton.mp h]
        exact flW
  · intro hp
    rcases hp with ⟨d, hd, hds⟩ | ⟨d, hd, hds⟩
    · rcases hrcase with ⟨d', hd', hne, _, _⟩ | ⟨hit, _, _⟩
      · rw [hd] at hd'
        cases hd'
        exact hne hds
      · rw [List.getElem?_eq_none (le_of_eq hit.symm)] at hd
        cases hd
    · rcases hlcase with ⟨d', hd', hne, _, _⟩ | ⟨hit, _, _⟩
      · rw [hd] at hd'
        cases hd'
        exact hne hds
      · rw [List.getElem?_eq_none (le_of_eq hit.symm)] at hd
        cases hd
  · rcases le_total nextl nextr with hm | hm
    · rcases hlcase with ⟨d, hd, _, hnx, _⟩ | ⟨_, hnx, _⟩
      · right
        right
        refine ⟨d, hd, ?_⟩
        show d.s_start = min nextl nextr
        rw [min_eq_left hm, hnx]
      · left
        show cfg.tot_length ≤ min nextl nextr
        rw [min_eq_left hm, hnx]
    · rcases hrcase with ⟨d, hd, _, hnx, _⟩ | ⟨_, hnx, _⟩
      · right
        left
        refine ⟨d, hd, ?_⟩
        show d.s_start = min nextl nextr
        rw [min_eq_right hm, hnx]
      · left
        show cfg.tot_length ≤ min nextl nextr
        rw [min_eq_right hm, hnx]

/-- On a valid state, one loop iteration succeeds, preserves the
invariant, and makes progress. -/
theorem sweepInv_step (cfg : SweepConfig) (st : SweepState)
    (inv : SweepInv cfg st) (hlt : st.present_s < cfg.tot_length) :
    ∃ st', sweepBody cfg st = .ok st' ∧ SweepInv cfg st' ∧
      (sweepRem st' < sweepRem st ∨
        (sweepRem st' = sweepRem st ∧ ¬pendAt st ∧
          (cfg.tot_length ≤ st'.present_s ∨ pendAt st'))) := by
  cases hrd : st.rdefs[st.r_it]? with
  | some dr =>
    by_cases hrs : dr.s_start = st.present_s
    · cases hld : st.ldefs[st.l_it]? with
      | some dl =>
        by_cases hls : dl.s_start = st.present_s
        · obtain ⟨st', h1, h2, h3⟩ :=
            sweepInv_step_both cfg st inv dr dl hrd hld hrs hls
          exact ⟨st', h1, h2, Or.inl h3⟩
        · obtain ⟨nextl, nl, hl, _⟩ := sideInfo_eval_noadd
            cfg.const_left st.ldefs st.l_it st.present_s cfg.tot_length
            inv.lNe inv.lItLe (Or.inl ⟨dl, hld, hls⟩)
          obtain ⟨st', h1, h2, h3⟩ := sweepInv_step_onlyRight cfg st inv
            dr nextl nl hrd hrs hl
            (by
              intro dl' hdl'
              rw [hld] at hdl'
              cases hdl'
              exact hls)
          exact ⟨st', h1, h2, Or.inl h3⟩
      | none =>
        obtain ⟨nextl, nl, hl, _⟩ := sideInfo_eval_noadd
          cfg.const_left st.ldefs st.l_it st.present_s cfg.tot_length
          inv.lNe inv.lItLe (Or.inr hld)
        obtain ⟨st', h1, h2, h3⟩ := sweepInv_step_onlyRight cfg st inv
          dr nextl nl hrd hrs hl
          (by
            intro dl' hdl'
            rw [hld] at hdl'
            cases hdl')
        exact ⟨st', h1, h2, Or.inl h3⟩
    · cases hld : st.ldefs[st.l_it]? with
      | some dl =>
        by_cases hls : dl.s_start = st.present_s
        · obtain ⟨nextr, nr, hr, _⟩ := sideInfo_eval_noadd
            cfg.const_right st.rdefs st.r_it st.present_s cfg.tot_length
            inv.rNe inv.rItLe (Or.inl ⟨dr, hrd, hrs⟩)
          obtain ⟨st', h1, h2, h3⟩ := sweepInv_step_onlyLeft cfg st inv
            dl nextr nr hld hls hr
            (by
              intro dr' hdr'
              rw [hrd] at hdr'
              cases hdr'
              exact hrs)
          exact ⟨st', h1, h2, Or.inl h3⟩
        · obtain ⟨nextr, nr, hr, hrich⟩ := sideInfo_eval_noadd
            cfg.const_right st.rdefs st.r_it st.present_s cfg.tot_length
            inv.rNe inv.rItLe (Or.inl ⟨dr, hrd, hrs⟩)
          obtain ⟨nextl, nl, hl, hlich⟩ := sideInfo_eval_noadd
            cfg.const_left st.ldefs st.l_it st.present_s cfg.tot_length
            inv.lNe inv.lItLe (Or.inl ⟨dl, hld, hls⟩)
          obtain ⟨st', h1, h2, h3⟩ := sweepInv_step_filler cfg st inv
            hlt nextr nr nextl nl hr hl hrich hlich
          exact ⟨st', h1, h2, Or.inr h3⟩
      | none =>
        obtain ⟨nextr, nr, hr, hrich⟩ := sideInfo_eval_noadd
          cfg.const_right st.rdefs st.r_it st.present_s cfg.tot_length
          inv.rNe inv.rItLe (Or.inl ⟨dr, hrd, hrs⟩)
        obtain ⟨nextl, nl, hl, hlich⟩ := sideInfo_eval_noadd
          cfg.const_left st.ldefs st.l_it st.present_s cfg.tot_length
          inv.lNe inv.lItLe (Or.inr hld)
        obtain ⟨st', h1, h2, h3⟩ := sweepInv_step_filler cfg st inv
          hlt nextr nr nextl nl hr hl hrich hlich
        exact ⟨st', h1, h2, Or.inr h3⟩
  | none =>
    cases hld : st.ldefs[st.l_it]? with
    | some dl =>
      by_cases hls : dl.s_start = st.present_s
      · obtain ⟨nextr, nr, hr, _⟩ := sideInfo_eval_noadd
          cfg.const_right st.rdefs st.r_it st.present_s cfg.tot_length
          inv.rNe inv.rItLe (Or.inr hrd)
        obtain ⟨st', h1, h2, h3⟩ := sweepInv_step_onlyLeft cfg st inv
          dl nextr nr hld hls hr
          (by
            intro dr' hdr'
            rw [hrd] at hdr'
            cases hdr')
        exact ⟨st', h1, h2, Or.inl h3⟩
      · obtain ⟨nextr, nr, hr, hrich⟩ := sideInfo_eval_noadd
          cfg.const_right st.rdefs st.r_it st.present_s cfg.tot_length
          inv.rNe inv.rItLe (Or.inr hrd)
        obtain ⟨nextl, nl, hl, hlich⟩ := sideInfo_eval_noadd
          cfg.const_left st.ldefs st.l_it st.present_s cfg.tot_length
          inv.lNe inv.lItLe (Or.inl ⟨dl, hld, hls⟩)
        obtain ⟨st', h1, h2, h3⟩ := sweepInv_step_filler cfg st inv
          hlt nextr nr nextl nl hr hl hrich hlich
        exact ⟨st', h1, h2, Or.inr h3⟩
    | none =>
      obtain ⟨nextr, nr, hr, hrich⟩ := sideInfo_eval_noadd
        cfg.const_right st.rdefs st.r_it st.present_s cfg.tot_length
        inv.rNe inv.rItLe (Or.inr hrd)
      obtain ⟨nextl, nl, hl, hlich⟩ := sideInfo_eval_noadd
        cfg.const_left st.ldefs st.l_it st.present_s cfg.tot_length
        inv.lNe inv.lItLe (Or.inr hld)
      obtain ⟨st', h1, h2, h3⟩ := sweepInv_step_filler cfg st inv
        hlt nextr nr nextl nl hr hl hrich hlich
      exact ⟨st', h1, h2, Or.inr h3⟩

/-- The sweep loop on a valid state runs to completion: it returns a
state satisfying the invariant whose position is exactly the road
length. -/
theorem sweepInv_loop (cfg : SweepConfig) :
    ∀ (fuel : ℕ) (st : SweepState), SweepInv cfg st →
      (2 * sweepRem st + 2 ≤ fuel ∨
        (2 * sweepRem st + 1 ≤ fuel ∧
          (cfg.tot_length ≤ st.present_s ∨ pendAt st))) →
      ∃ st', sweepLoop cfg fuel st = .ok st' ∧ SweepInv cfg st' ∧
        st'.present_s = cfg.tot_length := by
  intro fuel
  induction fuel with
  | zero =>
    intro st _ h
    rcases h with h | ⟨h, _⟩ <;> omega
  | succ fuel ih =>
    intro st inv h
    by_cases hlt : st.present_s < cfg.tot_length
    · rw [sweepLoop_step cfg fuel st hlt]
      obtain ⟨st', hok, inv', hcase⟩ := sweepInv_step cfg st inv hlt
      rw [hok]
      dsimp only
      apply ih st' inv'
      rcases hcase with hdec | ⟨heq, hnp, hpend⟩
      · left
        rcases h with h | ⟨h, _⟩ <;> omega
      · rcases h with h | ⟨h, hp⟩
        · right
          exact ⟨by omega, hpend⟩
        · rcases hp with hp | hp
          · exact absurd hlt (not_lt.mpr hp)
          · exact absurd hp hnp
    · rw [sweepLoop_stop cfg fuel st hlt]
      exact ⟨st, rfl, inv, le_antisymm inv.psLe (not_lt.mp hlt)⟩

/-- The initial sweep state satisfies the invariant on valid inputs. -/
theorem sweepInv_init (right left : LaneInput) (tot w : ℚ)
    (htot : 0 ≤ tot) (hr : inputOk tot right) (hl : inputOk tot left)
    (hc : crossOk right.toList left.toList) :
    SweepInv ⟨right.toConst, left.toConst, tot, w⟩
      ⟨0, 0, 0, right.toList, left.toList, [], []⟩ := by
  have hrOk : sideOk tot right.toList := by
    cases right with
    | consts n =>
      refine ⟨?_, List.chain'_nil⟩
      intro d hd
      cases hd
    | defs ds => exact hr.2.1
  have hlOk : sideOk tot left.toList := by
    cases left with
    | consts n =>
      refine ⟨?_, List.chain'_nil⟩
      intro d hd
      cases hd
    | defs ds => exact hl.2.1
  constructor
  · exact hrOk
  · exact hlOk
  · intro hnone
    cases right with
    | consts n => cases hnone
    | defs ds => exact hr.1
  · intro hnone
    cases left with
    | consts n => cases hnone
    | defs ds => exact hl.1
  · intro d hd
    cases right with
    | consts n => cases hd
    | defs ds => exact hr.2.2 d hd
  · intro d hd
    cases left with
    | consts n => cases hd
    | defs ds => exact hl.2.2 d hd
  · exact hc
  · exact Nat.zero_le _
  · exact Nat.zero_le _
  · intro d hd
    exact (hrOk.1 d (elem_of_getElem? hd)).1
  · intro d hd
    exact (hlOk.1 d (elem_of_getElem? hd)).1
  · exact htot
  · exact rfl
  · exact rfl
  · exact rfl
  · intro d hd
    cases hd
  · intro d hd
    cases hd

/-- On valid inputs the sweep of `_create_lane_lists` succeeds, its
final state satisfies the invariant, ends exactly at the road length,
and `create_lane_lists` returns the accumulated lists with
`_adjust_lane_widths` applied. -/
theorem create_lane_lists_ok (right left : LaneInput) (tot w : ℚ)
    (htot : 0 ≤ tot) (hr : inputOk tot right) (hl : inputOk tot left)
    (hc : crossOk right.toList left.toList) :
    ∃ st',
      sweepLoop ⟨right.toConst, left.toConst, tot, w⟩
        (sweepFuel right left)
        ⟨0, 0, 0, right.toList, left.toList, [], []⟩ = .ok st' ∧
      SweepInv ⟨right.toConst, left.toConst, tot, w⟩ st' ∧
      st'.present_s = tot ∧
      create_lane_lists right left tot w =
        .ok (st'.ret_right.map LaneDef.adjust_lane_widths,
          st'.ret_left.map LaneDef.adjust_lane_widths) := by
  obtain ⟨st', hok, inv', hps⟩ := sweepInv_loop
    ⟨right.toConst, left.toConst, tot, w⟩ (sweepFuel right left)
    ⟨0, 0, 0, right.toList, left.toList, [], []⟩
    (sweepInv_init right left tot w htot hr hl hc)
    (Or.inl (by unfold sweepFuel sweepRem; simp))
  refine ⟨st', hok, inv', hps, ?_⟩
  rw [create_lane_lists_eq, hok]

/-- `_adjust_lane_widths` does not move interval boundaries, so mapping
it over a list leaves the `bnds` image unchanged. -/
theorem map_bnds_map_adjust (l : List LaneDef) :
    (l.map LaneDef.adjust_lane_widths).map bnds = l.map bnds := by
  rw [List.map_map]
  exact List.map_congr_left fun d _ => adjust_bnds d

/-- Tiling is preserved by mapping `_adjust_lane_widths`. -/
theorem tiles_map_adjust (l : List LaneDef) :
    ∀ a b : ℚ, tiles a b l →
      tiles a b (l.map LaneDef.adjust_lane_widths) := by
  induction l with
  | nil => intro a b h; exact h
  | cons d ds ih =>
    intro a b h
    obtain ⟨h1, h2, h3⟩ := h
    refine ⟨?_, ?_, ?_⟩
    · rw [adjust_s_start, h1]
    · rw [adjust_s_end]; exact h2
    · rw [adjust_s_end]; exact ih _ _ h3

/-- C1 (amended): for inputs that are valid per side AND cross-side
compatible (every right descriptor and every left descriptor either
share the same interval exactly or are disjoint), the two sequences
returned by `_create_lane_lists` have identical `(s_start, s_end)`
boundaries element-for-element and each tiles `[0, road_length)`
contiguously with no gaps or overlaps.  Without the cross-side
compatibility condition the conclusion is false (see the
counterexample); per-side validity alone does not suffice because the
"both sides start here" branch advances only to the left descriptor's
end. -/
theorem timeline_boundaries_aligned (right left : LaneInput) (tot w : ℚ)
    (htot : 0 ≤ tot) (hr : inputOk tot right) (hl : inputOk tot left)
    (hc : crossOk right.toList left.toList) :
    ∃ r l, create_lane_lists right left tot w = .ok (r, l) ∧
      r.map bnds = l.map bnds ∧ r.length = l.length ∧
      tiles 0 tot r ∧ tiles 0 tot l := by
  obtain ⟨st', _, inv', hps, heq⟩ :=
    create_lane_lists_ok right left tot w htot hr hl hc
  refine ⟨_, _, heq, ?_, ?_, ?_, ?_⟩
  · rw [map_bnds_map_adjust, map_bnds_map_adjust, inv'.bndEq]
  · have h := congrArg List.length inv'.bndEq
    simpa using h
  · exact tiles_map_adjust _ 0 tot (hps ▸ inv'.tilesR)
  · exact tiles_map_adjust _ 0 tot (hps ▸ inv'.tilesL)

/-- The right-side descriptor `[0, 5)` of the C1 counterexample. -/
def ce1Right : LaneDef :=
  { s_start := 0, s_end := 5, n_lanes_start := 2, n_lanes_end := 2 }

/-- The left-side descriptor `[0, 10)` of the C1 counterexample. -/
def ce1Left : LaneDef :=
  { s_start := 0, s_end := 10, n_lanes_start := 2, n_lanes_end := 2 }

/-- The right sequence returned for the C1 counterexample input. -/
def ce1OutRight : LaneDef :=
  { s_start := 0, s_end := 5, n_lanes_start := 2, n_lanes_end := 2, sub_lane := none, lane_start_widths := [3, 3], lane_end_widths := [3, 3] }

/-- The left sequence returned for the C1 counterexample input. -/
def ce1OutLeft : LaneDef :=
  { s_start := 0, s_end := 10, n_lanes_start := 2, n_lanes_end := 2, sub_lane := none, lane_start_widths := [3, 3], lane_end_widths := [3, 3] }

/-- Counterexample to C1 as stated: right `[0, 5)` and left `[0, 10)`
are each a valid per-side input for road length `10` (ordered,
non-overlapping, inside the road), yet the expansion returns sequences
with different boundaries (`[(0, 5)]` vs `[(0, 10)]`), and the right
sequence does not tile `[0, 10)` (the road past `s = 5` is uncovered on
the right). -/
theorem timeline_alignment_counterexample :
    inputOk 10 (LaneInput.defs [ce1Right]) ∧
    inputOk 10 (LaneInput.defs [ce1Left]) ∧
    create_lane_lists (.defs [ce1Right]) (.defs [ce1Left]) 10 3 =
      .ok ([ce1OutRight], [ce1OutLeft]) ∧
    [ce1OutRight].map bnds ≠ [ce1OutLeft].map bnds ∧
    ¬tiles 0 10 [ce1OutRight] := by
  refine ⟨by decide, by decide, by decide, by decide, by decide⟩

/-- First right-side descriptor `[0, 4)` of the C1 witness input. -/
def w1A : LaneDef :=
  { s_start := 0, s_end := 4, n_lanes_start := 2, n_lanes_end := 2 }

/-- Second right-side descriptor `[4, 10)` of the C1 witness input. -/
def w1B : LaneDef :=
  { s_start := 4, s_end := 10, n_lanes_start := 2, n_lanes_end := 2 }

/-- Witness for `timeline_boundaries_aligned`: right `[0, 4), [4, 10)`
against a constant left side, road length `10`. -/
theorem timeline_boundaries_aligned_witness :
    ∃ r l, create_lane_lists (.defs [w1A, w1B]) (.consts 1) 10 3 =
        .ok (r, l) ∧
      r.map bnds = l.map bnds ∧ r.length = l.length ∧
      tiles 0 10 r ∧ tiles 0 10 l :=
  timeline_boundaries_aligned (.defs [w1A, w1B]) (.consts 1) 10 3
    (by decide) (by decide) (by decide) (by decide)

/-- Record update of the end width list (spelled out as a function so
statements stay single-line). -/
def withEndWidths (d : LaneDef) (ws : List ℚ) : LaneDef :=
  { d with lane_end_widths := ws }

/-- Record update of the start width list. -/
def withStartWidths (d : LaneDef) (ws : List ℚ) : LaneDef :=
  { d with lane_start_widths := ws }

/-- Effect of `_adjust_lane_widths` on the width-list lengths of a
width-exact descriptor: either it is a no-op and both lengths stay
exact, or the merge padding fires and the end list grows to
`n_lanes_end + 1`, or the split padding fires and the start list grows
to `n_lanes_start + 1`. -/
theorem adjust_lengths_of_exact (d : LaneDef) (h : widthsExact d) :
    widthsExact d.adjust_lane_widths ∨
    (subTruthy d.sub_lane = true ∧ d.n_lanes_end < d.n_lanes_start ∧
      d.adjust_lane_widths.lane_start_widths.length = d.n_lanes_start ∧
      d.adjust_lane_widths.lane_end_widths.length = d.n_lanes_end + 1) ∨
    (subTruthy d.sub_lane = true ∧ d.n_lanes_start < d.n_lanes_end ∧
      d.adjust_lane_widths.lane_start_widths.length =
        d.n_lanes_start + 1 ∧
      d.adjust_lane_widths.lane_end_widths.length = d.n_lanes_end) := by
  cases hb : subTruthy d.sub_lane with
  | false =>
    left
    have he : d.adjust_lane_widths = d := by
      unfold LaneDef.adjust_lane_widths
      rw [hb]
      simp
    rw [he]
    exact h
  | true =>
    by_cases hm : d.lane_end_widths ≠ [] ∧
        d.lane_end_widths.length < d.n_lanes_start
    · have he : d.adjust_lane_widths = withEndWidths d
          (pyInsert ((d.sub_lane.getD 0).natAbs - 1) 0 d.lane_end_widths) := by
        unfold LaneDef.adjust_lane_widths
        rw [if_pos hb]
        dsimp only
        rw [if_pos hm]
        rfl
      right; left
      refine ⟨rfl, ?_, ?_, ?_⟩
      · have h2 := hm.2
        rw [h.2] at h2
        exact h2
      · rw [he]
        exact h.1
      · rw [he]
        dsimp only [withEndWidths]
        rw [pyInsert_length, h.2]
    · by_cases hs : d.lane_start_widths ≠ [] ∧
          d.lane_start_widths.length < d.n_lanes_end
      · have he : d.adjust_lane_widths = withStartWidths d
            (pyInsert ((d.sub_lane.getD 0).natAbs - 1) 0
              d.lane_start_widths) := by
          unfold LaneDef.adjust_lane_widths
          rw [if_pos hb]
          dsimp only
          rw [if_neg hm, if_pos hs]
          rfl
        right; right
        refine ⟨rfl, ?_, ?_, ?_⟩
        · have h2 := hs.2
          rw [h.1] at h2
          exact h2
        · rw [he]
          dsimp only [withStartWidths]
          rw [pyInsert_length, h.1]
        · rw [he]
          exact h.2
      · left
        have he : d.adjust_lane_widths = d := by
          unfold LaneDef.adjust_lane_widths
          rw [if_pos hb]
          dsimp only
          rw [if_neg hm, if_neg hs]
        rw [he]
        exact h

/-- C2 (amended): on valid, cross-side compatible inputs every
descriptor of the two expanded sequences has its width lists populated
to exactly the lane counts UNLESS the count-change padding of
`_adjust_lane_widths` fired on it: padding inserts the zero placeholder
into the width list that was already exact, so a padded merge
descriptor ends with `len(lane_end_widths) = n_lanes_end + 1` and a
padded split descriptor with `len(lane_start_widths) =
n_lanes_start + 1`; the claimed equalities `len = count` for both lists
hold only for descriptors the padding left alone. -/
theorem output_width_lengths (right left : LaneInput) (tot w : ℚ)
    (htot : 0 ≤ tot) (hr : inputOk tot right) (hl : inputOk tot left)
    (hc : crossOk right.toList left.toList) :
    ∃ r l, create_lane_lists right left tot w = .ok (r, l) ∧
      ∀ d, d ∈ r ∨ d ∈ l →
        (d.lane_start_widths.length = d.n_lanes_start ∧
          d.lane_end_widths.length = d.n_lanes_end) ∨
        (subTruthy d.sub_lane = true ∧
          d.n_lanes_end < d.n_lanes_start ∧
          d.lane_start_widths.length = d.n_lanes_start ∧
          d.lane_end_widths.length = d.n_lanes_end + 1) ∨
        (subTruthy d.sub_lane = true ∧
          d.n_lanes_start < d.n_lanes_end ∧
          d.lane_start_widths.length = d.n_lanes_start + 1 ∧
          d.lane_end_widths.length = d.n_lanes_end) := by
  obtain ⟨st', _, inv', _, heq⟩ :=
    create_lane_lists_ok right left tot w htot hr hl hc
  refine ⟨_, _, heq, ?_⟩
  intro d hd
  have hex : ∃ d0, widthsExact d0 ∧ d = d0.adjust_lane_widths := by
    rcases hd with hd | hd
    · obtain ⟨d0, hd0, hde⟩ := List.mem_map.mp hd
      exact ⟨d0, inv'.retRW d0 hd0, hde.symm⟩
    · obtain ⟨d0, hd0, hde⟩ := List.mem_map.mp hd
      exact ⟨d0, inv'.retLW d0 hd0, hde.symm⟩
  obtain ⟨d0, hW, hde⟩ := hex
  subst hde
  rcases adjust_lengths_of_exact d0 hW with hcase | hcase | hcase
  · exact Or.inl hcase
  · right; left
    rw [adjust_sub, adjust_n_start, adjust_n_end]
    exact hcase
  · right; right
    rw [adjust_sub, adjust_n_start, adjust_n_end]
    exact hcase

/-- The merge descriptor (3 lanes narrowing to 2, `sub_lane = -1`) of
the C2 counterexample. -/
def ce2Def : LaneDef :=
  { s_start := 0, s_end := 10, n_lanes_start := 3, n_lanes_end := 2, sub_lane := some (-1) }

/-- The right sequence returned for the C2 counterexample input: the
padded end width list `[0, 3, 3]` has three entries for two end lanes. -/
def ce2OutRight : LaneDef :=
  { s_start := 0, s_end := 10, n_lanes_start := 3, n_lanes_end := 2, sub_lane := some (-1), lane_start_widths := [3, 3, 3], lane_end_widths := [0, 3, 3] }

/-- The left sequence returned for the C2 counterexample input. -/
def ce2OutLeft : LaneDef :=
  { s_start := 0, s_end := 10, n_lanes_start := 1, n_lanes_end := 1, sub_lane := none, lane_start_widths := [3], lane_end_widths := [3] }

/-- Counterexample to C2 as stated: for a perfectly valid input (a
single right merge descriptor over the whole road, constant left side)
the returned merge descriptor has `len(lane_end_widths) = 3` but
`n_lanes_end = 2` — after padding, the claimed equality
`len(lane_end_widths) == n_lanes_end` does not hold. -/
theorem width_padding_counterexample :
    inputOk 10 (LaneInput.defs [ce2Def]) ∧
    inputOk 10 (LaneInput.consts 1) ∧
    crossOk (LaneInput.defs [ce2Def]).toList
      (LaneInput.consts 1).toList ∧
    create_lane_lists (.defs [ce2Def]) (.consts 1) 10 3 =
      .ok ([ce2OutRight], [ce2OutLeft]) ∧
    ce2OutRight.lane_end_widths.length ≠ ce2OutRight.n_lanes_end := by
  refine ⟨by decide, by decide, by decide, by decide, by decide⟩

/-- Witness for `output_width_lengths` at the concrete counterexample
input (where the merge-padding disjunct is the one that holds). -/
theorem output_width_lengths_witness :
    ∃ r l, create_lane_lists (.defs [ce2Def]) (.consts 1) 10 3 =
        .ok (r, l) ∧
      ∀ d, d ∈ r ∨ d ∈ l →
        (d.lane_start_widths.length = d.n_lanes_start ∧
          d.lane_end_widths.length = d.n_lanes_end) ∨
        (subTruthy d.sub_lane = true ∧
          d.n_lanes_end < d.n_lanes_start ∧
          d.lane_start_widths.length = d.n_lanes_start ∧
          d.lane_end_widths.length = d.n_lanes_end + 1) ∨
        (subTruthy d.sub_lane = true ∧
          d.n_lanes_start < d.n_lanes_end ∧
          d.lane_start_widths.length = d.n_lanes_start + 1 ∧
          d.lane_end_widths.length = d.n_lanes_end) :=
  output_width_lengths (.defs [ce2Def]) (.consts 1) 10 3
    (by decide) (by decide) (by decide) (by decide)

/-! ## Claim C9: constant lane counts on both sides -/

/-- Successful `mapM` over `Except` from pointwise success. -/
theorem mapM_ok {α β : Type} (f : α → Except PyErr β) (g : α → β) :
    ∀ l : List α, (∀ a ∈ l, f a = .ok (g a)) →
      l.mapM f = .ok (l.map g) := by
  intro l
  induction l with
  | nil => intro _; rfl
  | cons a as ih =>
    intro hp
    rw [List.mapM_cons, hp a (List.mem_cons_self a as),
      ih (fun b hb => hp b (List.mem_cons_of_mem a hb))]
    rfl

/-- `_adjust_lane_widths` is the identity when `sub_lane` is unset. -/
theorem adjust_of_sub_none (d : LaneDef) (h : d.sub_lane = none) :
    d.adjust_lane_widths = d := by
  unfold LaneDef.adjust_lane_widths
  rw [h]
  simp [subTruthy]

/-- The single filler descriptor produced for a constant-count side over
the whole road. -/
def constFiller (n : ℕ) (tot w : ℚ) : LaneDef :=
  LaneDef.init 0 tot n n none (List.replicate n w) (List.replicate n w)

theorem constFiller_end_widths (n : ℕ) (tot w : ℚ) :
    (constFiller n tot w).lane_end_widths = List.replicate n w := by
  unfold constFiller LaneDef.init
  dsimp only
  split <;> rfl

theorem constFiller_nS (n : ℕ) (tot w : ℚ) :
    (constFiller n tot w).n_lanes_start = n := rfl

theorem constFiller_nE (n : ℕ) (tot w : ℚ) :
    (constFiller n tot w).n_lanes_end = n := rfl

theorem constFiller_start_widths (n : ℕ) (tot w : ℚ) :
    (constFiller n tot w).lane_start_widths = List.replicate n w := rfl

theorem constFiller_sub (n : ℕ) (tot w : ℚ) :
    (constFiller n tot w).sub_lane = none := rfl

theorem constFiller_sStart (n : ℕ) (tot w : ℚ) :
    (constFiller n tot w).s_start = 0 := rfl

theorem constFiller_sEnd (n : ℕ) (tot w : ℚ) :
    (constFiller n tot w).s_end = tot := rfl

/-- With constant counts on both sides the expansion returns exactly one
filler descriptor per side, spanning `[0, road_length)`. -/
theorem create_lane_lists_consts (nr nl : ℕ) (tot w : ℚ) (h : 0 < tot) :
    create_lane_lists (.consts nr) (.consts nl) tot w =
      .ok ([constFiller nr tot w], [constFiller nl tot w]) := by
  rw [create_lane_lists_eq]
  dsimp only [LaneInput.toConst, LaneInput.toList]
  have hr : sideInfo (some nr) ([] : List LaneDef) 0 0 tot =
      .ok (false, tot, nr) := sideInfo_const nr [] 0 0 tot rfl
  have hl : sideInfo (some nl) ([] : List LaneDef) 0 0 tot =
      .ok (false, tot, nl) := sideInfo_const nl [] 0 0 tot rfl
  have hfr : fillerSide (some nr) w nr ([] : List LaneDef) 0 0
      (min tot tot) = .ok (constFiller nr tot w) := by
    rw [min_self]
    rfl
  have hfl : fillerSide (some nl) w nl ([] : List LaneDef) 0 0
      (min tot tot) = .ok (constFiller nl tot w) := by
    rw [min_self]
    rfl
  have hbody := sweepBody_filler ⟨some nr, some nl, tot, w⟩
    ⟨0, 0, 0, [], [], [], []⟩ tot nr tot nl
    (constFiller nr tot w) (constFiller nl tot w) hr hl hfr hfl
  have hfuel : sweepFuel (.consts nr) (.consts nl) = 2 := rfl
  rw [hfuel, sweepLoop_step _ _ _ (by simpa using h), hbody]
  dsimp only
  rw [sweepLoop_stop _ _ _ (by simp)]
  dsimp only
  simp only [List.nil_append, List.map_cons, List.map_nil]
  rw [adjust_of_sub_none _ rfl, adjust_of_sub_none _ rfl]

/-- The cubic through equal endpoint widths is the constant profile. -/
theorem get_coeffs_const (len_ w : ℚ) (g : Bool) (h : 0 < len_) :
    get_coeffs_for_poly3 len_ w g w = .ok (w, 0, 0, 0) := by
  unfold get_coeffs_for_poly3
  rw [if_neg (not_le.mpr h)]
  norm_num

/-- Looking up any position of a constant width list. -/
theorem widthAt_replicate (n : ℕ) (w : ℚ) (i : ℕ) (hi : i < n) :
    widthAt (List.replicate n w) i = .ok w := by
  unfold widthAt
  rw [List.getElem?_replicate, if_pos hi]

/-- The shared width tail on a constant filler yields the constant
default-width lane. -/
theorem buildLaneTail_constFiller (n : ℕ) (tot w : ℚ) (h : 0 < tot)
    (i : ℕ) (hi : i < n) (rm : RoadMarkKind) :
    buildLaneTail w none (constFiller n tot w) i rm =
      .ok ⟨w, 0, 0, 0, rm⟩ := by
  unfold buildLaneTail
  rw [if_neg (by simp)]
  rw [if_pos (by rw [constFiller_start_widths]; simp; omega)]
  rw [constFiller_start_widths, constFiller_end_widths,
    widthAt_replicate n w i hi]
  show Except.bind (Except.ok w) _ = _
  dsimp only [Except.bind]
  rw [constFiller_sEnd, constFiller_sStart, sub_zero]
  show Except.bind (Except.ok w) _ = _
  dsimp only [Except.bind]
  rw [get_coeffs_const tot w false h]

/-- A right lane of the constant filler is the constant default-width
lane (solid road mark on the outermost lane, broken inside). -/
theorem buildRightLane_constFiller (n : ℕ) (tot w : ℚ) (h : 0 < tot)
    (i : ℕ) (hi : i < n) :
    buildRightLane w none (constFiller n tot w) i =
      .ok ⟨w, 0, 0, 0, if i = n - 1 then .solid else .broken⟩ := by
  unfold buildRightLane
  dsimp only
  rw [constFiller_nS, constFiller_nE, max_self]
  rw [if_neg (lt_irrefl n), if_neg (lt_irrefl n)]
  exact buildLaneTail_constFiller n tot w h i hi _

/-- A left lane of the constant filler is the constant default-width
lane. -/
theorem buildLeftLane_constFiller (n : ℕ) (tot w : ℚ) (h : 0 < tot)
    (i : ℕ) (hi : i < n) :
    buildLeftLane w none (constFiller n tot w) i =
      .ok ⟨w, 0, 0, 0, if i = n - 1 then .solid else .broken⟩ := by
  unfold buildLeftLane
  dsimp only
  rw [constFiller_nS, constFiller_nE, max_self]
  rw [if_neg (lt_irrefl n), if_neg (lt_irrefl n)]
  exact buildLaneTail_constFiller n tot w h i hi _

/-- The section built from the two constant fillers. -/
theorem buildSection_const (nr nl : ℕ) (tot w : ℚ) (h : 0 < tot) :
    buildSection w none (constFiller nr tot w) (constFiller nl tot w) =
      .ok ⟨0,
        (List.range nr).map
          (fun i => ⟨w, 0, 0, 0, if i = nr - 1 then .solid else .broken⟩),
        (List.range nl).map
          (fun i => ⟨w, 0, 0, 0, if i = nl - 1 then .solid else .broken⟩),
        ⟨0, 0, 0, 0, .center⟩⟩ := by
  unfold buildSection
  simp only [constFiller_nS, constFiller_nE, max_self]
  rw [mapM_ok (buildRightLane w none (constFiller nr tot w))
    (fun i => ⟨w, 0, 0, 0, if i = nr - 1 then .solid else .broken⟩)
    (List.range nr)
    (fun i himem =>
      buildRightLane_constFiller nr tot w h i (List.mem_range.mp himem))]
  show Except.bind (Except.ok _) _ = _
  dsimp only [Except.bind]
  rw [mapM_ok (buildLeftLane w none (constFiller nl tot w))
    (fun i => ⟨w, 0, 0, 0, if i = nl - 1 then .solid else .broken⟩)
    (List.range nl)
    (fun i himem =>
      buildLeftLane_constFiller nl tot w h i (List.mem_range.mp himem))]
  show Except.bind (Except.ok _) _ = _
  dsimp only [Except.bind]
  rfl

theorem range_one_eq : List.range 1 = [0] := rfl

/-- `buildSections` over a single aligned pair of descriptors. -/
theorem buildSections_single (rd ld : LaneDef) (w : ℚ) (wEnd : Option ℚ)
    (sec : MSection) (h : buildSection w wEnd rd ld = .ok sec) :
    buildSections [rd] [ld] w wEnd = .ok [sec] := by
  unfold buildSections
  simp only [List.length_singleton, range_one_eq, List.mapM_cons,
    List.mapM_nil]
  show Except.bind (buildSection w wEnd rd ld) _ = _
  rw [h]
  dsimp only [Except.bind]
  rfl

/-- No links are emitted when each side has one single section. -/
theorem buildAllLinks_single (rd ld : LaneDef) :
    buildAllLinks [rd] [ld] = .ok [] := by
  unfold buildAllLinks
  simp only [List.length_singleton, range_one_eq]
  rfl

/-- C9: when both sides are given as constant integer lane counts, the
build succeeds and produces exactly one lane section and no links; the
section starts at `0`, the underlying per-side descriptors span exactly
`[0, road_length)`, the section has the requested number of lanes on
each side, and every lane has the constant width profile
`(default_lane_width, 0, 0, 0)` (no distinct end-of-road width being
supplied). -/
theorem const_input_single_section (nr nl : ℕ) (tot w : ℚ)
    (h : 0 < tot) :
    ∃ sec, create_lanes_merge_split (.consts nr) (.consts nl) tot w
        none = .ok ([sec], []) ∧
      create_lane_lists (.consts nr) (.consts nl) tot w =
        .ok ([constFiller nr tot w], [constFiller nl tot w]) ∧
      (constFiller nr tot w).s_start = 0 ∧
      (constFiller nr tot w).s_end = tot ∧
      (constFiller nl tot w).s_start = 0 ∧
      (constFiller nl tot w).s_end = tot ∧
      sec.s_start = 0 ∧
      sec.rightlanes.length = nr ∧ sec.leftlanes.length = nl ∧
      (∀ ln ∈ sec.rightlanes,
        ln.a = w ∧ ln.b = 0 ∧ ln.c = 0 ∧ ln.d = 0) ∧
      (∀ ln ∈ sec.leftlanes,
        ln.a = w ∧ ln.b = 0 ∧ ln.c = 0 ∧ ln.d = 0) := by
  have hcll := create_lane_lists_consts nr nl tot w h
  have hsecs := buildSections_single (constFiller nr tot w)
    (constFiller nl tot w) w none _ (buildSection_const nr nl tot w h)
  have hlinks := buildAllLinks_single (constFiller nr tot w)
    (constFiller nl tot w)
  refine ⟨⟨0,
    (List.range nr).map
      (fun i => ⟨w, 0, 0, 0, if i = nr - 1 then .solid else .broken⟩),
    (List.range nl).map
      (fun i => ⟨w, 0, 0, 0, if i = nl - 1 then .solid else .broken⟩),
    ⟨0, 0, 0, 0, .center⟩⟩, ?_, hcll, rfl, rfl, rfl, rfl, rfl, ?_, ?_,
    ?_, ?_⟩
  · unfold create_lanes_merge_split
    rw [hcll]
    show Except.bind (Except.ok _) _ = _
    dsimp only [Except.bind]
    rw [hsecs]
    show Except.bind (Except.ok _) _ = _
    dsimp only [Except.bind]
    rw [hlinks]
    rfl
  · simp
  · simp
  · intro ln hln
    obtain ⟨i, _, hieq⟩ := List.mem_map.mp hln
    refine ⟨?_, ?_, ?_, ?_⟩ <;> rw [← hieq]
  · intro ln hln
    obtain ⟨i, _, hieq⟩ := List.mem_map.mp hln
    refine ⟨?_, ?_, ?_, ?_⟩ <;> rw [← hieq]

/-- Witness for `const_input_single_section` at two right lanes, one
left lane, road length `10`, default width `3`. -/
theorem const_input_single_section_witness :
    ∃ sec, create_lanes_merge_split (.consts 2) (.consts 1) 10 3
        none = .ok ([sec], []) ∧
      create_lane_lists (.consts 2) (.consts 1) 10 3 =
        .ok ([constFiller 2 10 3], [constFiller 1 10 3]) ∧
      (constFiller 2 10 3).s_start = 0 ∧
      (constFiller 2 10 3).s_end = 10 ∧
      (constFiller 1 10 3).s_start = 0 ∧
      (constFiller 1 10 3).s_end = 10 ∧
      sec.s_start = 0 ∧
      sec.rightlanes.length = 2 ∧ sec.leftlanes.length = 1 ∧
      (∀ ln ∈ sec.rightlanes,
        ln.a = 3 ∧ ln.b = 0 ∧ ln.c = 0 ∧ ln.d = 0) ∧
      (∀ ln ∈ sec.leftlanes,
        ln.a = 3 ∧ ln.b = 0 ∧ ln.c = 0 ∧ ln.d = 0) :=
  const_input_single_section 2 1 10 3 (by decide)
